import Mathlib

/-!
Verification of the ellipsoid mesh generator (`Source/Core/EllipsoidGeometry.js`).

The cube-space construction (corner list, edge interpolation, face
tessellation) is embedded polymorphically over a field `α`, so that it can be
executed over `ℚ` and reasoned about over `ℝ`.  The attribute passes
(position scaling, texture coordinates, normals/tangents/binormals) are
embedded over `ℝ` because they involve square roots and inverse trigonometric
functions.  Vector primitives mirror `Cartesian3`; the ellipsoid radius
helpers and the geodetic surface normal come from `Ellipsoid.js`, which is a
library collaborator of the reviewed file.
-/

set_option maxHeartbeats 1600000
set_option linter.unusedSectionVars false
set_option linter.unusedVariables false
set_option linter.unnecessarySimpa false

namespace CesiumSpec

/-- 3-component vector, mirroring `Cartesian3`. -/
structure Cartesian3 (α : Type) where
  x : α
  y : α
  z : α
deriving DecidableEq, Repr

variable {α : Type} [Field α]

/-- The zero vector, used as the lookup default for out-of-range accesses. -/
def czero : Cartesian3 α := ⟨0, 0, 0⟩

/-- `Cartesian3.add`. -/
def Cartesian3.add (a b : Cartesian3 α) : Cartesian3 α :=
  ⟨a.x + b.x, a.y + b.y, a.z + b.z⟩

/-- `Cartesian3.subtract`. -/
def Cartesian3.subtract (a b : Cartesian3 α) : Cartesian3 α :=
  ⟨a.x - b.x, a.y - b.y, a.z - b.z⟩

/-- `Cartesian3.multiplyByScalar`. -/
def Cartesian3.multiplyByScalar (a : Cartesian3 α) (s : α) : Cartesian3 α :=
  ⟨a.x * s, a.y * s, a.z * s⟩

/-- `Cartesian3.multiplyComponents`. -/
def Cartesian3.multiplyComponents (a b : Cartesian3 α) : Cartesian3 α :=
  ⟨a.x * b.x, a.y * b.y, a.z * b.z⟩

/-- `Cartesian3.cross`. -/
def Cartesian3.cross (a b : Cartesian3 α) : Cartesian3 α :=
  ⟨a.y * b.z - a.z * b.y, a.z * b.x - a.x * b.z, a.x * b.y - a.y * b.x⟩

/-- `Cartesian3.magnitudeSquared`. -/
def Cartesian3.magnitudeSquared (a : Cartesian3 ℝ) : ℝ :=
  a.x * a.x + a.y * a.y + a.z * a.z

/-- `Cartesian3.magnitude`. -/
noncomputable def Cartesian3.magnitude (a : Cartesian3 ℝ) : ℝ :=
  Real.sqrt a.magnitudeSquared

/-- `Cartesian3.normalize`: divide each component by the magnitude. -/
noncomputable def Cartesian3.normalize (a : Cartesian3 ℝ) : Cartesian3 ℝ :=
  a.multiplyByScalar (1 / a.magnitude)

/-- `Cartesian3.UNIT_Z`. -/
def unitZ : Cartesian3 ℝ := ⟨0, 0, 1⟩

/-!
## Edge interpolation (`addEdgePositions`)

The JavaScript loop body `indices[i] = positions.length; positions.push(p)`
is the step of a left fold carrying the accumulated interior-index list and
the shared position list.
-/

/-- One iteration of a loop that records the current position-list length as
a fresh index and appends a newly computed point. -/
def appendStep (g : ℕ → Cartesian3 α) (s : List ℕ × List (Cartesian3 α)) (i : ℕ) :
    List ℕ × List (Cartesian3 α) :=
  (s.1 ++ [s.2.length], s.2 ++ [g i])

/-- `addEdgePositions(i0, i1, numberOfPartitions, positions)`: writes `i0`
into slot `0` and `i1` into slot `2 + (numberOfPartitions - 1) - 1`, then for
`i = 1 .. numberOfPartitions - 1` appends `origin + direction * (i / n)` to
`positions`, recording each new index.  Returns the edge index list and the
grown position list. -/
def addEdgePositions (i0 i1 : ℕ) (numberOfPartitions : ℕ)
    (positions : List (Cartesian3 α)) : List ℕ × List (Cartesian3 α) :=
  let origin := positions.getD i0 czero
  let direction := (positions.getD i1 czero).subtract origin
  let interior := (List.range' 1 (numberOfPartitions - 1)).foldl
    (appendStep fun i =>
      origin.add (direction.multiplyByScalar ((i : α) / (numberOfPartitions : α))))
    ([], positions)
  (i0 :: (interior.1 ++ [i1]), interior.2)

/-- The point appended for loop counter `i` of `addEdgePositions`. -/
def edgePoint (origin direction : Cartesian3 α) (numberOfPartitions i : ℕ) :
    Cartesian3 α :=
  origin.add (direction.multiplyByScalar ((i : α) / (numberOfPartitions : α)))

theorem appendStep_foldl (g : ℕ → Cartesian3 α) (l : List ℕ) (acc : List ℕ)
    (ps : List (Cartesian3 α)) :
    l.foldl (appendStep g) (acc, ps) =
      (acc ++ List.range' ps.length l.length, ps ++ l.map g) := by
  induction l generalizing acc ps with
  | nil => simp
  | cons i t ih =>
      simp only [List.foldl_cons, appendStep, List.map_cons, List.length_cons]
      rw [ih]
      simp [List.range'_succ, List.append_assoc]

/-- Closed form of `addEdgePositions`: the returned index list is the origin
index, then the `numberOfPartitions - 1` freshly appended indices in order,
then the destination index; the position list is extended by exactly the
interpolated interior points. -/
theorem addEdgePositions_eq (i0 i1 numberOfPartitions : ℕ)
    (positions : List (Cartesian3 α)) :
    addEdgePositions i0 i1 numberOfPartitions positions =
      (i0 :: (List.range' positions.length (numberOfPartitions - 1) ++ [i1]),
       positions ++ (List.range' 1 (numberOfPartitions - 1)).map
         (edgePoint (positions.getD i0 czero)
           ((positions.getD i1 czero).subtract (positions.getD i0 czero))
           numberOfPartitions)) := by
  simp [addEdgePositions, appendStep_foldl, edgePoint]

/-!
## Face tessellation (`addFaceTriangles`)

The face frame (`origin`, `x`, `y`) is read off the bounding edge lists; the
`j` loop builds one interior row per iteration (the previous top row becoming
the bottom row) and emits two triangles per quad cell.
-/

/-- `origin = positions[bottomLeftToRight[0]]`. -/
def faceOrigin (positions : List (Cartesian3 α)) (bottomLeftToRight : List ℕ) :
    Cartesian3 α :=
  positions.getD (bottomLeftToRight.getD 0 0) czero

/-- `x = positions[bottomLeftToRight[bottomLeftToRight.length - 1]] - origin`. -/
def faceX (positions : List (Cartesian3 α)) (bottomLeftToRight : List ℕ) :
    Cartesian3 α :=
  (positions.getD (bottomLeftToRight.getD (bottomLeftToRight.length - 1) 0) czero).subtract
    (faceOrigin positions bottomLeftToRight)

/-- `y = positions[topLeftToRight[0]] - origin`. -/
def faceY (positions : List (Cartesian3 α)) (bottomLeftToRight topLeftToRight : List ℕ) :
    Cartesian3 α :=
  (positions.getD (topLeftToRight.getD 0 0) czero).subtract
    (faceOrigin positions bottomLeftToRight)

/-- The interior grid point built for column `i`, row `j`:
`origin + x * (i / n) + y * (j / n)` (bilinear frame, not row re-interpolation). -/
def facePoint (origin xAxis yAxis : Cartesian3 α) (numberOfPartitions i j : ℕ) :
    Cartesian3 α :=
  ((origin.add (xAxis.multiplyByScalar ((i : α) / (numberOfPartitions : α)))).add
    (yAxis.multiplyByScalar ((j : α) / (numberOfPartitions : α))))

/-- One iteration of the triangle-emission loop over quad cells `k`:
pushes the two triangles `(bottom[k], bottom[k+1], top[k+1])` and
`(bottom[k], top[k+1], top[k])`. -/
def quadStep (bottomIndices topIndices : List ℕ) (indices : List ℕ) (k : ℕ) :
    List ℕ :=
  indices ++
    [bottomIndices.getD k 0, bottomIndices.getD (k + 1) 0, topIndices.getD (k + 1) 0,
     bottomIndices.getD k 0, topIndices.getD (k + 1) 0, topIndices.getD k 0]

/-- One iteration of the row loop of `addFaceTriangles`, carrying
`(bottomIndices, positions, indices)`.  For `j ≠ numberOfPartitions` the new
top row is `[left[j], fresh interior indices, right[j]]` with the interior
points appended to `positions`; for `j = numberOfPartitions` the top row is
`topLeftToRight`.  Both branches then run the quad-emission loop. -/
def faceStep (leftBottomToTop rightBottomToTop topLeftToRight : List ℕ)
    (origin xAxis yAxis : Cartesian3 α) (numberOfPartitions : ℕ)
    (s : List ℕ × List (Cartesian3 α) × List ℕ) (j : ℕ) :
    List ℕ × List (Cartesian3 α) × List ℕ :=
  let bottomIndices := s.1
  let next :=
    if j ≠ numberOfPartitions then
      let interior := (List.range' 1 (numberOfPartitions - 1)).foldl
        (appendStep fun i => facePoint origin xAxis yAxis numberOfPartitions i j)
        ([], s.2.1)
      (leftBottomToTop.getD j 0 ::
        (interior.1 ++ [rightBottomToTop.getD j 0]), interior.2)
    else
      (topLeftToRight, s.2.1)
  (next.1, next.2,
    (List.range numberOfPartitions).foldl (quadStep bottomIndices next.1) s.2.2)

/-- `addFaceTriangles(leftBottomToTop, bottomLeftToRight, rightBottomToTop,
topLeftToRight, numberOfPartitions, positions, indices)`. -/
def addFaceTriangles (leftBottomToTop bottomLeftToRight rightBottomToTop
    topLeftToRight : List ℕ) (numberOfPartitions : ℕ)
    (positions : List (Cartesian3 α)) (indices : List ℕ) :
    List (Cartesian3 α) × List ℕ :=
  let origin := faceOrigin positions bottomLeftToRight
  let xAxis := faceX positions bottomLeftToRight
  let yAxis := faceY positions bottomLeftToRight topLeftToRight
  let s := (List.range' 1 numberOfPartitions).foldl
    (faceStep leftBottomToTop rightBottomToTop topLeftToRight
      origin xAxis yAxis numberOfPartitions)
    (bottomLeftToRight, positions, indices)
  (s.2.1, s.2.2)

/-!
## Closed forms for the face tessellator
-/

/-- The four bounding edge index lists of one face call, together with the
position-list length at call time (`base`). -/
structure FaceArgs where
  left : List ℕ
  bottom : List ℕ
  right : List ℕ
  top : List ℕ
  base : ℕ

/-- Row `j` of the logical grid of one face: row `0` is the bottom edge, row
`numberOfPartitions` is the top edge, and interior row `j` is
`[left[j], base + (j-1)(n-1) .. base + j(n-1) - 1, right[j]]`. -/
def faceRows (fa : FaceArgs) (numberOfPartitions j : ℕ) : List ℕ :=
  if j = 0 then fa.bottom
  else if j = numberOfPartitions then fa.top
  else fa.left.getD j 0 ::
    (List.range' (fa.base + (j - 1) * (numberOfPartitions - 1)) (numberOfPartitions - 1) ++
      [fa.right.getD j 0])

/-- The six indices emitted for all quad cells between two adjacent rows. -/
def quadIndices (bottomIndices topIndices : List ℕ) (numberOfPartitions : ℕ) :
    List ℕ :=
  (List.range numberOfPartitions).flatMap fun k =>
    [bottomIndices.getD k 0, bottomIndices.getD (k + 1) 0, topIndices.getD (k + 1) 0,
     bottomIndices.getD k 0, topIndices.getD (k + 1) 0, topIndices.getD k 0]

/-- All indices emitted by one face call. -/
def faceIndices (fa : FaceArgs) (numberOfPartitions : ℕ) : List ℕ :=
  (List.range' 1 numberOfPartitions).flatMap fun j =>
    quadIndices (faceRows fa numberOfPartitions (j - 1))
      (faceRows fa numberOfPartitions j) numberOfPartitions

/-- All interior points appended by one face call, rows `j = 1 .. n - 1`
outermost, columns `i = 1 .. n - 1` within a row. -/
def faceInteriorPoints (origin xAxis yAxis : Cartesian3 α)
    (numberOfPartitions : ℕ) : List (Cartesian3 α) :=
  (List.range' 1 (numberOfPartitions - 1)).flatMap fun j =>
    (List.range' 1 (numberOfPartitions - 1)).map fun i =>
      facePoint origin xAxis yAxis numberOfPartitions i j

theorem quadStep_foldl (b t : List ℕ) (n : ℕ) (inds : List ℕ) :
    (List.range n).foldl (quadStep b t) inds = inds ++ quadIndices b t n := by
  induction n generalizing inds with
  | zero => simp [quadIndices]
  | succ m ih =>
      rw [List.range_succ, List.foldl_append]
      simp only [List.foldl_cons, List.foldl_nil, ih, quadStep, quadIndices,
        List.range_succ, List.flatMap_append]
      simp

theorem length_faceInteriorPoints (origin xAxis yAxis : Cartesian3 α) (n : ℕ) :
    (faceInteriorPoints origin xAxis yAxis n).length = (n - 1) * (n - 1) := by
  simp [faceInteriorPoints, List.length_flatMap, Function.comp_def,
    List.map_const]

/-- Invariant of the row loop over `j = 1 .. m` with `m ≤ n - 1`: the carried
bottom row is grid row `m`, the positions have grown by the interior rows
`1 .. m`, and the indices by the quads of rows `1 .. m`. -/
theorem faceStep_foldl (l r t : List ℕ) (origin xAxis yAxis : Cartesian3 α)
    (n : ℕ) (b : List ℕ) (ps : List (Cartesian3 α)) (inds : List ℕ)
    (m : ℕ) (hm : m ≤ n - 1) (hn : 1 ≤ n) :
    (List.range' 1 m).foldl (faceStep l r t origin xAxis yAxis n)
      (b, ps, inds) =
      (faceRows ⟨l, b, r, t, ps.length⟩ n m,
       ps ++ (List.range' 1 m).flatMap (fun j =>
         (List.range' 1 (n - 1)).map fun i => facePoint origin xAxis yAxis n i j),
       inds ++ (List.range' 1 m).flatMap fun j =>
         quadIndices (faceRows ⟨l, b, r, t, ps.length⟩ n (j - 1))
           (faceRows ⟨l, b, r, t, ps.length⟩ n j) n) := by
  induction m with
  | zero => simp [faceRows]
  | succ m ih =>
      have hm' : m ≤ n - 1 := Nat.le_of_succ_le hm
      have hne0 : ¬(m + 1 = 0) := by omega
      have hneP : ¬(m + 1 = n) := by omega
      have hlen : (ps ++ (List.range' 1 m).flatMap fun j =>
          (List.range' 1 (n - 1)).map fun i =>
            facePoint origin xAxis yAxis n i j).length =
          ps.length + m * (n - 1) := by
        simp [List.length_flatMap, Function.comp_def, List.map_const, mul_comm]
      have hrow : faceRows ⟨l, b, r, t, ps.length⟩ n (m + 1) =
          l.getD (m + 1) 0 ::
            (List.range' (ps.length + m * (n - 1)) (n - 1) ++
              [r.getD (m + 1) 0]) := by
        simp [faceRows, hne0, hneP]
      rw [List.range'_concat, List.foldl_append, ih hm']
      simp only [one_mul, Nat.add_comm 1 m]
      simp only [List.flatMap_append, List.flatMap_cons, List.flatMap_nil,
        List.append_nil]
      simp only [List.foldl_cons, List.foldl_nil, faceStep, ne_eq, hneP,
        not_false_eq_true, if_pos, appendStep_foldl, quadStep_foldl, hlen]
      simp [hrow, Nat.add_sub_cancel, List.append_assoc]

/-- Closed form of `addFaceTriangles`: the position list is extended by the
bilinear interior grid (rows `1 .. n-1`), and the index list by the two
triangles of every quad cell of every row, expressed through the grid rows. -/
theorem addFaceTriangles_eq (l b r t : List ℕ) (n : ℕ)
    (ps : List (Cartesian3 α)) (inds : List ℕ) (hn : 1 ≤ n) :
    addFaceTriangles l b r t n ps inds =
      (ps ++ faceInteriorPoints (faceOrigin ps b) (faceX ps b) (faceY ps b t) n,
       inds ++ faceIndices ⟨l, b, r, t, ps.length⟩ n) := by
  have hsplit : List.range' 1 n = List.range' 1 (n - 1) ++ [n] := by
    have h1 : n = (n - 1) + 1 := by omega
    rw [h1, List.range'_concat]
    have : 1 + 1 * (n - 1) = n := by omega
    rw [this, ← h1]
  rw [addFaceTriangles, hsplit, List.foldl_append,
    faceStep_foldl l r t _ _ _ n b ps inds (n - 1) le_rfl hn]
  have htop : faceRows ⟨l, b, r, t, ps.length⟩ n n = t := by
    simp only [faceRows, if_neg (show ¬(n = 0) by omega)]
    simp
  simp only [List.foldl_cons, List.foldl_nil, faceStep, ne_eq,
    not_true_eq_false, if_neg, if_false, ite_self]
  rw [quadStep_foldl]
  refine Prod.ext ?_ ?_
  · simp [faceInteriorPoints]
  · simp only [faceIndices, hsplit, List.flatMap_append, List.flatMap_cons,
      List.flatMap_nil, List.append_nil, htop, List.append_assoc]

/-!
## The whole cube-space construction

`EllipsoidGeometry` first pushes the 8 corners, then interpolates the 12
edges (bottom ring, top ring, vertical connectors), then tessellates the 6
faces, the two cap faces receiving reversed edge lists.
-/

/-- The 8 initial cube corners `p0 .. p7` (planes `z = -1` and `z = 1`). -/
def cubeCorners : List (Cartesian3 α) :=
  [⟨-1, 0, -1⟩, ⟨0, -1, -1⟩, ⟨1, 0, -1⟩, ⟨0, 1, -1⟩,
   ⟨-1, 0, 1⟩, ⟨0, -1, 1⟩, ⟨1, 0, 1⟩, ⟨0, 1, 1⟩]

/-- The cube-space construction of the constructor body: corner positions,
12 edge interpolations, 6 face tessellations.  Returns the full position
list and the triangle index list. -/
def buildGeometry (numberOfPartitions : ℕ) :
    List (Cartesian3 α) × List ℕ :=
  let e0 := addEdgePositions 0 1 numberOfPartitions cubeCorners
  let e1 := addEdgePositions 1 2 numberOfPartitions e0.2
  let e2 := addEdgePositions 2 3 numberOfPartitions e1.2
  let e3 := addEdgePositions 3 0 numberOfPartitions e2.2
  let e4 := addEdgePositions 4 5 numberOfPartitions e3.2
  let e5 := addEdgePositions 5 6 numberOfPartitions e4.2
  let e6 := addEdgePositions 6 7 numberOfPartitions e5.2
  let e7 := addEdgePositions 7 4 numberOfPartitions e6.2
  let e8 := addEdgePositions 0 4 numberOfPartitions e7.2
  let e9 := addEdgePositions 1 5 numberOfPartitions e8.2
  let e10 := addEdgePositions 2 6 numberOfPartitions e9.2
  let e11 := addEdgePositions 3 7 numberOfPartitions e10.2
  let edge0to1 := e0.1
  let edge1to2 := e1.1
  let edge2to3 := e2.1
  let edge3to0 := e3.1
  let edge4to5 := e4.1
  let edge5to6 := e5.1
  let edge6to7 := e6.1
  let edge7to4 := e7.1
  let edge0to4 := e8.1
  let edge1to5 := e9.1
  let edge2to6 := e10.1
  let edge3to7 := e11.1
  let f0 := addFaceTriangles edge0to4 edge0to1 edge1to5 edge4to5
    numberOfPartitions e11.2 []
  let f1 := addFaceTriangles edge1to5 edge1to2 edge2to6 edge5to6
    numberOfPartitions f0.1 f0.2
  let f2 := addFaceTriangles edge2to6 edge2to3 edge3to7 edge6to7
    numberOfPartitions f1.1 f1.2
  let f3 := addFaceTriangles edge3to7 edge3to0 edge0to4 edge7to4
    numberOfPartitions f2.1 f2.2
  let f4 := addFaceTriangles edge7to4.reverse edge4to5 edge5to6 edge6to7.reverse
    numberOfPartitions f3.1 f3.2
  let f5 := addFaceTriangles edge1to2 edge0to1.reverse edge3to0.reverse edge2to3
    numberOfPartitions f4.1 f4.2
  f5

/-!
## Closed form of the full construction

Throughout, `Q` abbreviates `numberOfPartitions - 1`, the number of interior
points per edge.
-/

/-- Corner index pair of the `k`-th edge interpolation call. -/
def edgeEnds : ℕ → ℕ × ℕ
  | 0 => (0, 1)
  | 1 => (1, 2)
  | 2 => (2, 3)
  | 3 => (3, 0)
  | 4 => (4, 5)
  | 5 => (5, 6)
  | 6 => (6, 7)
  | 7 => (7, 4)
  | 8 => (0, 4)
  | 9 => (1, 5)
  | 10 => (2, 6)
  | 11 => (3, 7)
  | _ => (0, 0)

/-- The index list produced by the `k`-th edge interpolation: its interior
indices form the contiguous fresh block starting at `8 + k * Q`. -/
def builtEdge (Q k : ℕ) : List ℕ :=
  (edgeEnds k).1 :: (List.range' (8 + k * Q) Q ++ [(edgeEnds k).2])

/-- Corner position looked up by index. -/
def cornerPos (i : ℕ) : Cartesian3 α :=
  (cubeCorners (α := α)).getD i czero

/-- The interior points appended by the `k`-th edge interpolation. -/
def eblock (Q k : ℕ) : List (Cartesian3 α) :=
  (List.range' 1 Q).map
    (edgePoint (cornerPos (edgeEnds k).1)
      ((cornerPos (edgeEnds k).2).subtract (cornerPos (edgeEnds k).1)) (Q + 1))

/-- Position list after the corners and the first `k` edge interpolations. -/
def stageE (Q k : ℕ) : List (Cartesian3 α) :=
  cubeCorners ++ (List.range k).flatMap (eblock Q)

/-- The bilinear frame (origin, x-axis, y-axis) of face `f`, read off the
corner positions of its bounding edges. -/
def faceFrames : ℕ → Cartesian3 α × Cartesian3 α × Cartesian3 α
  | 0 => (⟨-1, 0, -1⟩, ⟨1, -1, 0⟩, ⟨0, 0, 2⟩)
  | 1 => (⟨0, -1, -1⟩, ⟨1, 1, 0⟩, ⟨0, 0, 2⟩)
  | 2 => (⟨1, 0, -1⟩, ⟨-1, 1, 0⟩, ⟨0, 0, 2⟩)
  | 3 => (⟨0, 1, -1⟩, ⟨-1, -1, 0⟩, ⟨0, 0, 2⟩)
  | 4 => (⟨-1, 0, 1⟩, ⟨1, -1, 0⟩, ⟨1, 1, 0⟩)
  | 5 => (⟨0, -1, -1⟩, ⟨-1, 1, 0⟩, ⟨1, 1, 0⟩)
  | _ => (czero, czero, czero)

/-- The interior points appended by face `f`. -/
def fblock (Q f : ℕ) : List (Cartesian3 α) :=
  faceInteriorPoints (faceFrames f).1 (faceFrames f).2.1 (faceFrames f).2.2 (Q + 1)

/-- Position list after all edges and the first `f` face tessellations. -/
def stageF (Q f : ℕ) : List (Cartesian3 α) :=
  stageE Q 12 ++ (List.range f).flatMap (fblock Q)

/-- The four edge index lists passed to face `f`, and the position-list
length at the time of the call. -/
def builtFaceArgs (Q : ℕ) : ℕ → FaceArgs
  | 0 => ⟨builtEdge Q 8, builtEdge Q 0, builtEdge Q 9, builtEdge Q 4,
          8 + 12 * Q⟩
  | 1 => ⟨builtEdge Q 9, builtEdge Q 1, builtEdge Q 10, builtEdge Q 5,
          8 + 12 * Q + 1 * (Q * Q)⟩
  | 2 => ⟨builtEdge Q 10, builtEdge Q 2, builtEdge Q 11, builtEdge Q 6,
          8 + 12 * Q + 2 * (Q * Q)⟩
  | 3 => ⟨builtEdge Q 11, builtEdge Q 3, builtEdge Q 8, builtEdge Q 7,
          8 + 12 * Q + 3 * (Q * Q)⟩
  | 4 => ⟨(builtEdge Q 7).reverse, builtEdge Q 4, builtEdge Q 5,
          (builtEdge Q 6).reverse, 8 + 12 * Q + 4 * (Q * Q)⟩
  | 5 => ⟨builtEdge Q 1, (builtEdge Q 0).reverse, (builtEdge Q 3).reverse,
          builtEdge Q 2, 8 + 12 * Q + 5 * (Q * Q)⟩
  | _ => ⟨[], [], [], [], 0⟩

/-- The triangle index buffer of the whole construction. -/
def builtIndices (Q : ℕ) : List ℕ :=
  faceIndices (builtFaceArgs Q 0) (Q + 1) ++
    (faceIndices (builtFaceArgs Q 1) (Q + 1) ++
      (faceIndices (builtFaceArgs Q 2) (Q + 1) ++
        (faceIndices (builtFaceArgs Q 3) (Q + 1) ++
          (faceIndices (builtFaceArgs Q 4) (Q + 1) ++
            faceIndices (builtFaceArgs Q 5) (Q + 1)))))

theorem length_cubeCorners : (cubeCorners (α := α)).length = 8 := rfl

theorem length_eblock (Q k : ℕ) : (eblock (α := α) Q k).length = Q := by
  simp [eblock]

theorem length_stageE (Q k : ℕ) :
    (stageE (α := α) Q k).length = 8 + k * Q := by
  simp [stageE, List.length_flatMap, Function.comp_def, length_eblock,
    length_cubeCorners, List.map_const', mul_comm]

theorem length_fblock (Q f : ℕ) : (fblock (α := α) Q f).length = Q * Q := by
  rw [fblock, length_faceInteriorPoints]
  simp

theorem length_stageF (Q f : ℕ) :
    (stageF (α := α) Q f).length = 8 + 12 * Q + f * (Q * Q) := by
  simp [stageF, length_stageE, List.length_flatMap, Function.comp_def,
    length_fblock, List.map_const', mul_comm]

theorem stageE_zero (Q : ℕ) : stageE (α := α) Q 0 = cubeCorners := by
  simp [stageE]

theorem stageF_zero (Q : ℕ) : stageF (α := α) Q 0 = stageE Q 12 := by
  simp [stageF]

theorem getD_stageE_corner (Q k i : ℕ) (h : i < 8) :
    (stageE (α := α) Q k).getD i czero = cornerPos i := by
  rw [stageE, List.getD_append _ _ _ _ (by simp [cubeCorners]; omega)]
  rfl

theorem getD_stageF_corner (Q f i : ℕ) (h : i < 8) :
    (stageF (α := α) Q f).getD i czero = cornerPos i := by
  rw [stageF, List.getD_append _ _ _ _ (by rw [length_stageE]; omega)]
  exact getD_stageE_corner Q 12 i h

theorem length_builtEdge (Q k : ℕ) : (builtEdge Q k).length = Q + 2 := by
  simp [builtEdge]

theorem getD_builtEdge_zero (Q k : ℕ) :
    (builtEdge Q k).getD 0 0 = (edgeEnds k).1 := rfl

theorem getD_builtEdge_last (Q k : ℕ) :
    (builtEdge Q k).getD (Q + 1) 0 = (edgeEnds k).2 := by
  rw [builtEdge, List.getD_cons_succ,
    List.getD_append_right _ _ _ _ (by simp)]
  simp

theorem builtEdge_reverse (Q k : ℕ) :
    (builtEdge Q k).reverse =
      (edgeEnds k).2 ::
        ((List.range' (8 + k * Q) Q).reverse ++ [(edgeEnds k).1]) := by
  simp [builtEdge]

theorem length_builtEdge_reverse (Q k : ℕ) :
    (builtEdge Q k).reverse.length = Q + 2 := by
  simp [length_builtEdge]

theorem getD_builtEdge_reverse_zero (Q k : ℕ) :
    (builtEdge Q k).reverse.getD 0 0 = (edgeEnds k).2 := by
  rw [builtEdge_reverse]
  rfl

theorem getD_builtEdge_reverse_last (Q k : ℕ) :
    (builtEdge Q k).reverse.getD (Q + 1) 0 = (edgeEnds k).1 := by
  rw [builtEdge_reverse, List.getD_cons_succ,
    List.getD_append_right _ _ _ _ (by simp)]
  simp

/-- The `k`-th edge interpolation call, on the position list it actually
receives, returns the closed-form edge list and grows the stage by one
interior block. -/
theorem edge_stage (Q k : ℕ) (h1 : (edgeEnds k).1 < 8) (h2 : (edgeEnds k).2 < 8) :
    addEdgePositions (edgeEnds k).1 (edgeEnds k).2 (Q + 1)
      (stageE (α := α) Q k) = (builtEdge Q k, stageE Q (k + 1)) := by
  rw [addEdgePositions_eq, getD_stageE_corner Q k _ h1, getD_stageE_corner Q k _ h2]
  refine Prod.ext ?_ ?_
  · simp [builtEdge, length_stageE]
  · simp [stageE, List.range_succ, List.flatMap_append, eblock,
      List.append_assoc]

theorem cornerPos_0 : cornerPos (α := α) 0 = ⟨-1, 0, -1⟩ := rfl

theorem cornerPos_1 : cornerPos (α := α) 1 = ⟨0, -1, -1⟩ := rfl

theorem cornerPos_2 : cornerPos (α := α) 2 = ⟨1, 0, -1⟩ := rfl

theorem cornerPos_3 : cornerPos (α := α) 3 = ⟨0, 1, -1⟩ := rfl

theorem cornerPos_4 : cornerPos (α := α) 4 = ⟨-1, 0, 1⟩ := rfl

theorem cornerPos_5 : cornerPos (α := α) 5 = ⟨0, -1, 1⟩ := rfl

theorem cornerPos_6 : cornerPos (α := α) 6 = ⟨1, 0, 1⟩ := rfl

theorem cornerPos_7 : cornerPos (α := α) 7 = ⟨0, 1, 1⟩ := rfl

theorem faceOrigin_eval (Q f : ℕ) (b : List ℕ) (i : ℕ)
    (hb : b.getD 0 0 = i) (h : i < 8) :
    faceOrigin (stageF (α := α) Q f) b = cornerPos i := by
  rw [faceOrigin, hb, getD_stageF_corner _ _ _ h]

theorem faceX_eval (Q f : ℕ) (b : List ℕ) (i j : ℕ)
    (hb0 : b.getD 0 0 = i) (hbl : b.getD (b.length - 1) 0 = j)
    (hi : i < 8) (hj : j < 8) :
    faceX (stageF (α := α) Q f) b = (cornerPos j).subtract (cornerPos i) := by
  rw [faceX, hbl, getD_stageF_corner _ _ _ hj, faceOrigin_eval Q f b i hb0 hi]

theorem faceY_eval (Q f : ℕ) (b t : List ℕ) (i j : ℕ)
    (hb0 : b.getD 0 0 = i) (ht0 : t.getD 0 0 = j)
    (hi : i < 8) (hj : j < 8) :
    faceY (stageF (α := α) Q f) b t = (cornerPos j).subtract (cornerPos i) := by
  rw [faceY, ht0, getD_stageF_corner _ _ _ hj, faceOrigin_eval Q f b i hb0 hi]

theorem face_stage0 (Q : ℕ) (inds : List ℕ) :
    addFaceTriangles (builtEdge Q 8) (builtEdge Q 0) (builtEdge Q 9)
      (builtEdge Q 4) (Q + 1) (stageF (α := α) Q 0) inds =
      (stageF Q 1, inds ++ faceIndices (builtFaceArgs Q 0) (Q + 1)) := by
  rw [addFaceTriangles_eq _ _ _ _ _ _ _ (by omega),
    faceOrigin_eval Q 0 _ 0 (getD_builtEdge_zero Q 0) (by omega),
    faceX_eval Q 0 _ 0 1 (getD_builtEdge_zero Q 0)
      (by rw [length_builtEdge]; exact getD_builtEdge_last Q 0)
      (by omega) (by omega),
    faceY_eval Q 0 _ _ 0 4 (getD_builtEdge_zero Q 0) (getD_builtEdge_zero Q 4)
      (by omega) (by omega)]
  have hx : (cornerPos (α := α) 1).subtract (cornerPos 0) = ⟨1, -1, 0⟩ := by
    norm_num [cornerPos_1, cornerPos_0, Cartesian3.subtract,
      Cartesian3.mk.injEq]
  have hy : (cornerPos (α := α) 4).subtract (cornerPos 0) = ⟨0, 0, 2⟩ := by
    norm_num [cornerPos_4, cornerPos_0, Cartesian3.subtract,
      Cartesian3.mk.injEq]
  refine Prod.ext ?_ ?_
  · rw [hx, hy, cornerPos_0]
    simp [stageF, List.range_succ, List.flatMap_append, fblock, faceFrames,
      List.append_assoc]
  · rw [length_stageF]
    simp [builtFaceArgs]

theorem face_stage1 (Q : ℕ) (inds : List ℕ) :
    addFaceTriangles (builtEdge Q 9) (builtEdge Q 1) (builtEdge Q 10)
      (builtEdge Q 5) (Q + 1) (stageF (α := α) Q 1) inds =
      (stageF Q 2, inds ++ faceIndices (builtFaceArgs Q 1) (Q + 1)) := by
  rw [addFaceTriangles_eq _ _ _ _ _ _ _ (by omega),
    faceOrigin_eval Q 1 _ 1 (getD_builtEdge_zero Q 1) (by omega),
    faceX_eval Q 1 _ 1 2 (getD_builtEdge_zero Q 1)
      (by rw [length_builtEdge]; exact getD_builtEdge_last Q 1)
      (by omega) (by omega),
    faceY_eval Q 1 _ _ 1 5 (getD_builtEdge_zero Q 1) (getD_builtEdge_zero Q 5)
      (by omega) (by omega)]
  have hx : (cornerPos (α := α) 2).subtract (cornerPos 1) = ⟨1, 1, 0⟩ := by
    norm_num [cornerPos_2, cornerPos_1, Cartesian3.subtract,
      Cartesian3.mk.injEq]
  have hy : (cornerPos (α := α) 5).subtract (cornerPos 1) = ⟨0, 0, 2⟩ := by
    norm_num [cornerPos_5, cornerPos_1, Cartesian3.subtract,
      Cartesian3.mk.injEq]
  refine Prod.ext ?_ ?_
  · rw [hx, hy, cornerPos_1]
    simp [stageF, List.range_succ, List.flatMap_append, fblock, faceFrames,
      List.append_assoc]
  · rw [length_stageF]
    simp [builtFaceArgs]

theorem face_stage2 (Q : ℕ) (inds : List ℕ) :
    addFaceTriangles (builtEdge Q 10) (builtEdge Q 2) (builtEdge Q 11)
      (builtEdge Q 6) (Q + 1) (stageF (α := α) Q 2) inds =
      (stageF Q 3, inds ++ faceIndices (builtFaceArgs Q 2) (Q + 1)) := by
  rw [addFaceTriangles_eq _ _ _ _ _ _ _ (by omega),
    faceOrigin_eval Q 2 _ 2 (getD_builtEdge_zero Q 2) (by omega),
    faceX_eval Q 2 _ 2 3 (getD_builtEdge_zero Q 2)
      (by rw [length_builtEdge]; exact getD_builtEdge_last Q 2)
      (by omega) (by omega),
    faceY_eval Q 2 _ _ 2 6 (getD_builtEdge_zero Q 2) (getD_builtEdge_zero Q 6)
      (by omega) (by omega)]
  have hx : (cornerPos (α := α) 3).subtract (cornerPos 2) = ⟨-1, 1, 0⟩ := by
    norm_num [cornerPos_3, cornerPos_2, Cartesian3.subtract,
      Cartesian3.mk.injEq]
  have hy : (cornerPos (α := α) 6).subtract (cornerPos 2) = ⟨0, 0, 2⟩ := by
    norm_num [cornerPos_6, cornerPos_2, Cartesian3.subtract,
      Cartesian3.mk.injEq]
  refine Prod.ext ?_ ?_
  · rw [hx, hy, cornerPos_2]
    simp [stageF, List.range_succ, List.flatMap_append, fblock, faceFrames,
      List.append_assoc]
  · rw [length_stageF]
    simp [builtFaceArgs]

theorem face_stage3 (Q : ℕ) (inds : List ℕ) :
    addFaceTriangles (builtEdge Q 11) (builtEdge Q 3) (builtEdge Q 8)
      (builtEdge Q 7) (Q + 1) (stageF (α := α) Q 3) inds =
      (stageF Q 4, inds ++ faceIndices (builtFaceArgs Q 3) (Q + 1)) := by
  rw [addFaceTriangles_eq _ _ _ _ _ _ _ (by omega),
    faceOrigin_eval Q 3 _ 3 (getD_builtEdge_zero Q 3) (by omega),
    faceX_eval Q 3 _ 3 0 (getD_builtEdge_zero Q 3)
      (by rw [length_builtEdge]; exact getD_builtEdge_last Q 3)
      (by omega) (by omega),
    faceY_eval Q 3 _ _ 3 7 (getD_builtEdge_zero Q 3) (getD_builtEdge_zero Q 7)
      (by omega) (by omega)]
  have hx : (cornerPos (α := α) 0).subtract (cornerPos 3) = ⟨-1, -1, 0⟩ := by
    norm_num [cornerPos_0, cornerPos_3, Cartesian3.subtract,
      Cartesian3.mk.injEq]
  have hy : (cornerPos (α := α) 7).subtract (cornerPos 3) = ⟨0, 0, 2⟩ := by
    norm_num [cornerPos_7, cornerPos_3, Cartesian3.subtract,
      Cartesian3.mk.injEq]
  refine Prod.ext ?_ ?_
  · rw [hx, hy, cornerPos_3]
    simp [stageF, List.range_succ, List.flatMap_append, fblock, faceFrames,
      List.append_assoc]
  · rw [length_stageF]
    simp [builtFaceArgs]

theorem face_stage4 (Q : ℕ) (inds : List ℕ) :
    addFaceTriangles (builtEdge Q 7).reverse (builtEdge Q 4) (builtEdge Q 5)
      (builtEdge Q 6).reverse (Q + 1) (stageF (α := α) Q 4) inds =
      (stageF Q 5, inds ++ faceIndices (builtFaceArgs Q 4) (Q + 1)) := by
  rw [addFaceTriangles_eq _ _ _ _ _ _ _ (by omega),
    faceOrigin_eval Q 4 _ 4 (getD_builtEdge_zero Q 4) (by omega),
    faceX_eval Q 4 _ 4 5 (getD_builtEdge_zero Q 4)
      (by rw [length_builtEdge]; exact getD_builtEdge_last Q 4)
      (by omega) (by omega),
    faceY_eval Q 4 _ _ 4 7 (getD_builtEdge_zero Q 4) (getD_builtEdge_reverse_zero Q 6)
      (by omega) (by omega)]
  have hx : (cornerPos (α := α) 5).subtract (cornerPos 4) = ⟨1, -1, 0⟩ := by
    norm_num [cornerPos_5, cornerPos_4, Cartesian3.subtract,
      Cartesian3.mk.injEq]
  have hy : (cornerPos (α := α) 7).subtract (cornerPos 4) = ⟨1, 1, 0⟩ := by
    norm_num [cornerPos_7, cornerPos_4, Cartesian3.subtract,
      Cartesian3.mk.injEq]
  refine Prod.ext ?_ ?_
  · rw [hx, hy, cornerPos_4]
    simp [stageF, List.range_succ, List.flatMap_append, fblock, faceFrames,
      List.append_assoc]
  · rw [length_stageF]
    simp [builtFaceArgs]

theorem face_stage5 (Q : ℕ) (inds : List ℕ) :
    addFaceTriangles (builtEdge Q 1) (builtEdge Q 0).reverse (builtEdge Q 3).reverse
      (builtEdge Q 2) (Q + 1) (stageF (α := α) Q 5) inds =
      (stageF Q 6, inds ++ faceIndices (builtFaceArgs Q 5) (Q + 1)) := by
  rw [addFaceTriangles_eq _ _ _ _ _ _ _ (by omega),
    faceOrigin_eval Q 5 _ 1 (getD_builtEdge_reverse_zero Q 0) (by omega),
    faceX_eval Q 5 _ 1 0 (getD_builtEdge_reverse_zero Q 0)
      (by rw [List.length_reverse, length_builtEdge]; exact getD_builtEdge_reverse_last Q 0)
      (by omega) (by omega),
    faceY_eval Q 5 _ _ 1 2 (getD_builtEdge_reverse_zero Q 0) (getD_builtEdge_zero Q 2)
      (by omega) (by omega)]
  have hx : (cornerPos (α := α) 0).subtract (cornerPos 1) = ⟨-1, 1, 0⟩ := by
    norm_num [cornerPos_0, cornerPos_1, Cartesian3.subtract,
      Cartesian3.mk.injEq]
  have hy : (cornerPos (α := α) 2).subtract (cornerPos 1) = ⟨1, 1, 0⟩ := by
    norm_num [cornerPos_2, cornerPos_1, Cartesian3.subtract,
      Cartesian3.mk.injEq]
  refine Prod.ext ?_ ?_
  · rw [hx, hy, cornerPos_1]
    simp [stageF, List.range_succ, List.flatMap_append, fblock, faceFrames,
      List.append_assoc]
  · rw [length_stageF]
    simp [builtFaceArgs]

/-- Master closed form of the cube-space construction: the 12 edge
interpolations and 6 face tessellations produce exactly the staged position
list and the concatenated per-face index streams. -/
theorem buildGeometry_eq (Q : ℕ) :
    buildGeometry (α := α) (Q + 1) = (stageF Q 6, builtIndices Q) := by
  have h0 := edge_stage (α := α) Q 0 (by decide) (by decide)
  have h1 := edge_stage (α := α) Q 1 (by decide) (by decide)
  have h2 := edge_stage (α := α) Q 2 (by decide) (by decide)
  have h3 := edge_stage (α := α) Q 3 (by decide) (by decide)
  have h4 := edge_stage (α := α) Q 4 (by decide) (by decide)
  have h5 := edge_stage (α := α) Q 5 (by decide) (by decide)
  have h6 := edge_stage (α := α) Q 6 (by decide) (by decide)
  have h7 := edge_stage (α := α) Q 7 (by decide) (by decide)
  have h8 := edge_stage (α := α) Q 8 (by decide) (by decide)
  have h9 := edge_stage (α := α) Q 9 (by decide) (by decide)
  have h10 := edge_stage (α := α) Q 10 (by decide) (by decide)
  have h11 := edge_stage (α := α) Q 11 (by decide) (by decide)
  simp only [edgeEnds] at h0 h1 h2 h3 h4 h5 h6 h7 h8 h9 h10 h11
  rw [stageE_zero] at h0
  simp only [buildGeometry, h0, h1, h2, h3, h4, h5, h6, h7, h8, h9, h10, h11]
  rw [← stageF_zero]
  simp only [face_stage0, face_stage1, face_stage2, face_stage3, face_stage4,
    face_stage5]
  simp [builtIndices, List.append_assoc]

/-!
## Generic index-list access lemmas
-/

theorem getD_cons_range'_last (a b s m : ℕ) :
    (a :: (List.range' s m ++ [b])).getD (m + 1) 0 = b := by
  rw [List.getD_cons_succ, List.getD_append_right _ _ _ _ (by simp)]
  simp

theorem getD_cons_range'_mid (a b s m i : ℕ) (h1 : 1 ≤ i) (h2 : i ≤ m) :
    (a :: (List.range' s m ++ [b])).getD i 0 = s + (i - 1) := by
  obtain ⟨j, rfl⟩ : ∃ j, i = j + 1 := ⟨i - 1, by omega⟩
  rw [List.getD_cons_succ,
    List.getD_append _ _ _ _ (by simp; omega),
    List.getD_eq_getElem _ _ (by simp; omega)]
  simp

/-!
## Claim theorems on buffer sizes and the two tessellation contracts
-/

theorem length_quadIndices (b t : List ℕ) (n : ℕ) :
    (quadIndices b t n).length = 6 * n := by
  simp [quadIndices, List.length_flatMap, Function.comp_def, List.map_const',
    mul_comm]

theorem length_faceIndices (fa : FaceArgs) (n : ℕ) :
    (faceIndices fa n).length = n * (6 * n) := by
  simp [faceIndices, List.length_flatMap, Function.comp_def, length_quadIndices,
    List.map_const', mul_comm]

/-- C1.  For every `P ≥ 1` the construction yields exactly
`8 + 12(P-1) + 6(P-1)²` positions and `36 P²` triangle indices. -/
theorem buffer_sizes_formula {α : Type} [Field α] (P : ℕ) (hP : 1 ≤ P) :
    (buildGeometry (α := α) P).1.length =
        8 + 12 * (P - 1) + 6 * ((P - 1) * (P - 1)) ∧
      (buildGeometry (α := α) P).2.length = 36 * (P * P) := by
  obtain ⟨Q, rfl⟩ : ∃ Q, P = Q + 1 := ⟨P - 1, by omega⟩
  rw [buildGeometry_eq]
  constructor
  · rw [length_stageF]
    simp
  · simp only [builtIndices, List.length_append, length_faceIndices]
    ring_nf

/-- C1 witness at `P = 2` over `ℚ`. -/
theorem buffer_sizes_formula_witness :
    1 ≤ 2 ∧
      ((buildGeometry (α := ℚ) 2).1.length = 8 + 12 * (2 - 1) + 6 * ((2 - 1) * (2 - 1)) ∧
        (buildGeometry (α := ℚ) 2).2.length = 36 * (2 * 2)) :=
  ⟨by decide, buffer_sizes_formula 2 (by decide)⟩

/-- C5.  Contract of the edge interpolator `addEdgePositions`: the returned
index list has length `P + 1`, starts with the origin index, ends (slot `P`)
with the destination index, its interior entries `1 .. P-1` are the indices
of the `P - 1` points freshly appended in order, the `i`-th appended point is
`origin + (dest - origin) * (i / P)`, and the position list is otherwise
unchanged (pure append). -/
theorem edge_interpolator_contract {α : Type} [Field α] (i0 i1 P : ℕ)
    (ps : List (Cartesian3 α)) (hP : 1 ≤ P) :
    (addEdgePositions i0 i1 P ps).1.length = P + 1 ∧
    (addEdgePositions i0 i1 P ps).1.getD 0 0 = i0 ∧
    (addEdgePositions i0 i1 P ps).1.getD P 0 = i1 ∧
    (∀ i, 1 ≤ i → i ≤ P - 1 →
      (addEdgePositions i0 i1 P ps).1.getD i 0 = ps.length + (i - 1)) ∧
    (addEdgePositions i0 i1 P ps).2 =
      ps ++ (List.range' 1 (P - 1)).map
        (edgePoint (ps.getD i0 czero)
          ((ps.getD i1 czero).subtract (ps.getD i0 czero)) P) ∧
    (addEdgePositions i0 i1 P ps).2.length = ps.length + (P - 1) := by
  rw [addEdgePositions_eq]
  obtain ⟨m, hm⟩ : ∃ m, P = m + 1 := ⟨P - 1, by omega⟩
  refine ⟨by simp; omega, rfl, ?_, ?_, rfl, by simp⟩
  · subst hm
    simpa using getD_cons_range'_last i0 i1 ps.length m
  · intro i h1 h2
    exact getD_cons_range'_mid i0 i1 ps.length (P - 1) i h1 h2

/-- C5 witness: edge `0 → 1`, `P = 3`, on the corner list over `ℚ`. -/
theorem edge_interpolator_contract_witness :
    1 ≤ 3 ∧
      ((addEdgePositions 0 1 3 (cubeCorners (α := ℚ))).1.length = 3 + 1 ∧
       (addEdgePositions 0 1 3 (cubeCorners (α := ℚ))).1.getD 0 0 = 0 ∧
       (addEdgePositions 0 1 3 (cubeCorners (α := ℚ))).1.getD 3 0 = 1 ∧
       (∀ i, 1 ≤ i → i ≤ 3 - 1 →
         (addEdgePositions 0 1 3 (cubeCorners (α := ℚ))).1.getD i 0 =
           (cubeCorners (α := ℚ)).length + (i - 1)) ∧
       (addEdgePositions 0 1 3 (cubeCorners (α := ℚ))).2 =
         cubeCorners ++ (List.range' 1 (3 - 1)).map
           (edgePoint ((cubeCorners (α := ℚ)).getD 0 czero)
             (((cubeCorners (α := ℚ)).getD 1 czero).subtract
               ((cubeCorners (α := ℚ)).getD 0 czero)) 3) ∧
       (addEdgePositions 0 1 3 (cubeCorners (α := ℚ))).2.length =
         (cubeCorners (α := ℚ)).length + (3 - 1)) :=
  ⟨by decide, edge_interpolator_contract 0 1 3 cubeCorners (by decide)⟩

/-- C6.  Contract of the face tessellator `addFaceTriangles` on well-formed
bounding edge lists of length `P + 1`: every interior grid point of row `j`,
column `i` is `origin + x·(i/P) + y·(j/P)` computed from the face's bilinear
frame (`faceInteriorPoints` is exactly that grid, not a re-interpolation from
row boundary points), and for every row the emitted triangles are, for each
quad cell `k`, exactly `(bottomRow[k], bottomRow[k+1], topRow[k+1])` then
`(bottomRow[k], topRow[k+1], topRow[k])` in that order (`faceIndices` over
`faceRows`). -/
theorem face_tessellator_contract {α : Type} [Field α]
    (l b r t : List ℕ) (P : ℕ) (ps : List (Cartesian3 α)) (inds : List ℕ)
    (hP : 1 ≤ P) (hl : l.length = P + 1) (hb : b.length = P + 1)
    (hr : r.length = P + 1) (ht : t.length = P + 1) :
    addFaceTriangles l b r t P ps inds =
      (ps ++ faceInteriorPoints (faceOrigin ps b) (faceX ps b) (faceY ps b t) P,
       inds ++ faceIndices ⟨l, b, r, t, ps.length⟩ P) :=
  addFaceTriangles_eq l b r t P ps inds hP

/-- C6 witness: the bottom-cap degenerate case `P = 1` over `ℚ` (two
triangles straight from the corner indices). -/
theorem face_tessellator_contract_witness :
    (1 ≤ 1 ∧ ([0, 4] : List ℕ).length = 1 + 1 ∧ ([0, 1] : List ℕ).length = 1 + 1 ∧
      ([1, 5] : List ℕ).length = 1 + 1 ∧ ([4, 5] : List ℕ).length = 1 + 1) ∧
      addFaceTriangles [0, 4] [0, 1] [1, 5] [4, 5] 1 (cubeCorners (α := ℚ)) [] =
        (cubeCorners ++ faceInteriorPoints (faceOrigin cubeCorners [0, 1])
          (faceX cubeCorners [0, 1]) (faceY cubeCorners [0, 1] [4, 5]) 1,
         [] ++ faceIndices ⟨[0, 4], [0, 1], [1, 5], [4, 5],
           (cubeCorners (α := ℚ)).length⟩ 1) :=
  ⟨by decide,
   face_tessellator_contract [0, 4] [0, 1] [1, 5] [4, 5] 1 cubeCorners []
     (by decide) (by decide) (by decide) (by decide) (by decide)⟩

/-!
## Claim theorem: every emitted index is in bounds
-/

theorem edgeEnds_lt (k : ℕ) : (edgeEnds k).1 < 8 ∧ (edgeEnds k).2 < 8 := by
  rcases k with _|_|_|_|_|_|_|_|_|_|_|_|n <;> simp [edgeEnds]

theorem getD_mem_or (l : List ℕ) (j : ℕ) : l.getD j 0 ∈ l ∨ l.getD j 0 = 0 := by
  by_cases h : j < l.length
  · left
    rw [List.getD_eq_getElem l 0 h]
    exact List.getElem_mem h
  · right
    exact List.getD_eq_default l 0 (by omega)

theorem mem_builtEdge_bound (Q k : ℕ) (hk : k < 12) :
    ∀ x ∈ builtEdge Q k, x < 8 + 12 * Q := by
  intro x hx
  rcases List.mem_cons.mp hx with h | h
  · have := (edgeEnds_lt k).1
    omega
  · rcases List.mem_append.mp h with h2 | h2
    · have hm := List.mem_range'_1.mp h2
      have hmul : (k + 1) * Q ≤ 12 * Q := Nat.mul_le_mul_right Q (by omega)
      have : k * Q + Q = (k + 1) * Q := by ring
      omega
    · simp only [List.mem_singleton] at h2
      subst h2
      have := (edgeEnds_lt k).2
      omega

theorem mem_faceArgs_list_bound (Q f : ℕ) (hf : f < 6) (x : ℕ)
    (hx : x ∈ (builtFaceArgs Q f).left ∨ x ∈ (builtFaceArgs Q f).bottom ∨
      x ∈ (builtFaceArgs Q f).right ∨ x ∈ (builtFaceArgs Q f).top) :
    x < 8 + 12 * Q := by
  interval_cases f <;>
    simp only [builtFaceArgs, List.mem_reverse] at hx <;>
    rcases hx with h | h | h | h <;>
    exact mem_builtEdge_bound Q _ (by omega) x h

theorem builtFaceArgs_base_le (Q f : ℕ) (hf : f < 6) :
    (builtFaceArgs Q f).base ≤ 8 + 12 * Q + 5 * (Q * Q) := by
  interval_cases f <;> simp only [builtFaceArgs] <;> set t := Q * Q <;> omega

theorem faceRows_getD_bound (Q f : ℕ) (hf : f < 6) (j m : ℕ) (hj : j ≤ Q + 1) :
    (faceRows (builtFaceArgs Q f) (Q + 1) j).getD m 0 <
      8 + 12 * Q + 6 * (Q * Q) := by
  by_cases hj0 : j = 0
  · subst hj0
    have hrow : faceRows (builtFaceArgs Q f) (Q + 1) 0 =
        (builtFaceArgs Q f).bottom := by simp [faceRows]
    rw [hrow]
    rcases getD_mem_or (builtFaceArgs Q f).bottom m with h | h
    · have := mem_faceArgs_list_bound Q f hf _ (Or.inr (Or.inl h))
      omega
    · rw [h]
      omega
  · by_cases hjP : j = Q + 1
    · subst hjP
      have hrow : faceRows (builtFaceArgs Q f) (Q + 1) (Q + 1) =
          (builtFaceArgs Q f).top := by
        rw [faceRows, if_neg hj0, if_pos rfl]
      rw [hrow]
      rcases getD_mem_or (builtFaceArgs Q f).top m with h | h
      · have := mem_faceArgs_list_bound Q f hf _ (Or.inr (Or.inr (Or.inr h)))
        omega
      · rw [h]
        omega
    · have hrow : faceRows (builtFaceArgs Q f) (Q + 1) j =
          (builtFaceArgs Q f).left.getD j 0 ::
            (List.range' ((builtFaceArgs Q f).base + (j - 1) * (Q + 1 - 1))
              (Q + 1 - 1) ++ [(builtFaceArgs Q f).right.getD j 0]) := by
        rw [faceRows, if_neg hj0, if_neg hjP]
      rw [hrow]
      rcases getD_mem_or _ m with h | h
      · rcases List.mem_cons.mp h with h2 | h2
        · rcases getD_mem_or (builtFaceArgs Q f).left j with h3 | h3
          · rw [h2]
            have := mem_faceArgs_list_bound Q f hf _ (Or.inl h3)
            omega
          · rw [h2, h3]
            omega
        · rcases List.mem_append.mp h2 with h3 | h3
          · have hm := List.mem_range'_1.mp h3
            have hbase := builtFaceArgs_base_le Q f hf
            have hjQ : j ≤ Q := by omega
            have hstep : (j - 1) * (Q + 1 - 1) + (Q + 1 - 1) ≤ Q * Q := by
              have h4 : ((j - 1) + 1) ≤ Q := by omega
              calc (j - 1) * (Q + 1 - 1) + (Q + 1 - 1)
                  = ((j - 1) + 1) * Q := by simp; ring
                _ ≤ Q * Q := Nat.mul_le_mul_right Q h4
            omega
          · simp only [List.mem_singleton] at h3
            rcases getD_mem_or (builtFaceArgs Q f).right j with h4 | h4
            · rw [h3]
              have := mem_faceArgs_list_bound Q f hf _ (Or.inr (Or.inr (Or.inl h4)))
              omega
            · rw [h3, h4]
              omega
      · rw [h]
        omega

theorem mem_faceIndices_bound (Q f : ℕ) (hf : f < 6) :
    ∀ x ∈ faceIndices (builtFaceArgs Q f) (Q + 1),
      x < 8 + 12 * Q + 6 * (Q * Q) := by
  intro x hx
  rw [faceIndices, List.mem_flatMap] at hx
  obtain ⟨j, hj, hq⟩ := hx
  have hjr := List.mem_range'_1.mp hj
  rw [quadIndices, List.mem_flatMap] at hq
  obtain ⟨k, hk, hmem⟩ := hq
  simp only [List.mem_cons, List.not_mem_nil, or_false] at hmem
  rcases hmem with h | h | h | h | h | h <;> rw [h] <;>
    exact faceRows_getD_bound Q f hf _ _ (by omega)

/-- C9.  Every value in the emitted index buffer is a valid position-list
index: it is strictly below the final length of the position list. -/
theorem indices_in_bounds {α : Type} [Field α] (P : ℕ) (hP : 1 ≤ P) :
    ∀ x ∈ (buildGeometry (α := α) P).2,
      x < (buildGeometry (α := α) P).1.length := by
  obtain ⟨Q, rfl⟩ : ∃ Q, P = Q + 1 := ⟨P - 1, by omega⟩
  rw [buildGeometry_eq]
  intro x hx
  rw [length_stageF]
  simp only [builtIndices, List.mem_append] at hx
  rcases hx with h | h | h | h | h | h
  · exact mem_faceIndices_bound Q 0 (by omega) x h
  · exact mem_faceIndices_bound Q 1 (by omega) x h
  · exact mem_faceIndices_bound Q 2 (by omega) x h
  · exact mem_faceIndices_bound Q 3 (by omega) x h
  · exact mem_faceIndices_bound Q 4 (by omega) x h
  · exact mem_faceIndices_bound Q 5 (by omega) x h

/-- C9 witness at `P = 2` over `ℚ`. -/
theorem indices_in_bounds_witness :
    1 ≤ 2 ∧ ∀ x ∈ (buildGeometry (α := ℚ) 2).2,
      x < (buildGeometry (α := ℚ) 2).1.length :=
  ⟨by decide, indices_in_bounds 2 (by decide)⟩

/-!
## Claim theorem: adjacent faces share identical edge index sequences
-/

/-- The sequence of position indices a face references along its left
boundary, read from its grid rows bottom to top. -/
def leftColumn (fa : FaceArgs) (n : ℕ) : List ℕ :=
  (List.range (n + 1)).map fun j => (faceRows fa n j).getD 0 0

/-- The sequence of position indices a face references along its right
boundary, read from its grid rows bottom to top. -/
def rightColumn (fa : FaceArgs) (n : ℕ) : List ℕ :=
  (List.range (n + 1)).map fun j => (faceRows fa n j).getD n 0

theorem faceRows_zero (fa : FaceArgs) (n : ℕ) : faceRows fa n 0 = fa.bottom := by
  simp [faceRows]

theorem faceRows_last (fa : FaceArgs) (Q : ℕ) :
    faceRows fa (Q + 1) (Q + 1) = fa.top := by
  rw [faceRows, if_neg (by omega), if_pos rfl]

theorem leftColumn_eq (fa : FaceArgs) (Q : ℕ)
    (hlen : fa.left.length = Q + 2)
    (h0 : fa.bottom.getD 0 0 = fa.left.getD 0 0)
    (h1 : fa.top.getD 0 0 = fa.left.getD (Q + 1) 0) :
    leftColumn fa (Q + 1) = fa.left := by
  apply List.ext_get
  · simp [leftColumn, hlen]
  · intro n hn1 hn2
    simp only [leftColumn, List.get_eq_getElem, List.getElem_map,
      List.getElem_range]
    rw [← List.getD_eq_getElem fa.left 0 hn2]
    by_cases hn0 : n = 0
    · subst hn0
      rw [faceRows_zero]
      exact h0
    · by_cases hnP : n = Q + 1
      · subst hnP
        rw [faceRows_last]
        exact h1
      · rw [faceRows, if_neg hn0, if_neg hnP, List.getD_cons_zero]

theorem rightColumn_eq (fa : FaceArgs) (Q : ℕ)
    (hlen : fa.right.length = Q + 2)
    (h0 : fa.bottom.getD (Q + 1) 0 = fa.right.getD 0 0)
    (h1 : fa.top.getD (Q + 1) 0 = fa.right.getD (Q + 1) 0) :
    rightColumn fa (Q + 1) = fa.right := by
  apply List.ext_get
  · simp [rightColumn, hlen]
  · intro n hn1 hn2
    simp only [rightColumn, List.get_eq_getElem, List.getElem_map,
      List.getElem_range]
    rw [← List.getD_eq_getElem fa.right 0 hn2]
    by_cases hn0 : n = 0
    · subst hn0
      rw [faceRows_zero]
      exact h0
    · by_cases hnP : n = Q + 1
      · subst hnP
        rw [faceRows_last]
        exact h1
      · rw [faceRows, if_neg hn0, if_neg hnP]
        simp only [Nat.add_sub_cancel]
        exact getD_cons_range'_last _ _ _ Q

/-- C7.  Each of the 12 cube edges is interpolated exactly once (the interior
index blocks `8 + k(P-1) .. 8 + (k+1)(P-1) - 1` are pairwise disjoint, and the
position list contains each interior block once, by the closed form), and the
two faces adjacent to each edge reference the identical index sequence along
it — directly or reversed — through their grid rows and boundary columns. -/
theorem shared_edges_consistent (P : ℕ) (hP : 1 ≤ P) :
    (buildGeometry (α := ℚ) P).1 = stageF (P - 1) 6 ∧
    (buildGeometry (α := ℚ) P).2 = builtIndices (P - 1) ∧
    (∀ k1 k2 x, k1 < 12 → k2 < 12 → k1 ≠ k2 →
      x ∈ List.range' (8 + k1 * (P - 1)) (P - 1) →
      x ∉ List.range' (8 + k2 * (P - 1)) (P - 1)) ∧
    (faceRows (builtFaceArgs (P - 1) 0) P 0 = builtEdge (P - 1) 0 ∧
      faceRows (builtFaceArgs (P - 1) 5) P 0 = (builtEdge (P - 1) 0).reverse) ∧
    (faceRows (builtFaceArgs (P - 1) 1) P 0 = builtEdge (P - 1) 1 ∧
      leftColumn (builtFaceArgs (P - 1) 5) P = builtEdge (P - 1) 1) ∧
    (faceRows (builtFaceArgs (P - 1) 2) P 0 = builtEdge (P - 1) 2 ∧
      faceRows (builtFaceArgs (P - 1) 5) P P = builtEdge (P - 1) 2) ∧
    (faceRows (builtFaceArgs (P - 1) 3) P 0 = builtEdge (P - 1) 3 ∧
      rightColumn (builtFaceArgs (P - 1) 5) P = (builtEdge (P - 1) 3).reverse) ∧
    (faceRows (builtFaceArgs (P - 1) 0) P P = builtEdge (P - 1) 4 ∧
      faceRows (builtFaceArgs (P - 1) 4) P 0 = builtEdge (P - 1) 4) ∧
    (faceRows (builtFaceArgs (P - 1) 1) P P = builtEdge (P - 1) 5 ∧
      rightColumn (builtFaceArgs (P - 1) 4) P = builtEdge (P - 1) 5) ∧
    (faceRows (builtFaceArgs (P - 1) 2) P P = builtEdge (P - 1) 6 ∧
      faceRows (builtFaceArgs (P - 1) 4) P P = (builtEdge (P - 1) 6).reverse) ∧
    (faceRows (builtFaceArgs (P - 1) 3) P P = builtEdge (P - 1) 7 ∧
      leftColumn (builtFaceArgs (P - 1) 4) P = (builtEdge (P - 1) 7).reverse) ∧
    (leftColumn (builtFaceArgs (P - 1) 0) P = builtEdge (P - 1) 8 ∧
      rightColumn (builtFaceArgs (P - 1) 3) P = builtEdge (P - 1) 8) ∧
    (rightColumn (builtFaceArgs (P - 1) 0) P = builtEdge (P - 1) 9 ∧
      leftColumn (builtFaceArgs (P - 1) 1) P = builtEdge (P - 1) 9) ∧
    (rightColumn (builtFaceArgs (P - 1) 1) P = builtEdge (P - 1) 10 ∧
      leftColumn (builtFaceArgs (P - 1) 2) P = builtEdge (P - 1) 10) ∧
    (rightColumn (builtFaceArgs (P - 1) 2) P = builtEdge (P - 1) 11 ∧
      leftColumn (builtFaceArgs (P - 1) 3) P = builtEdge (P - 1) 11) := by
  obtain ⟨Q, rfl⟩ : ∃ Q, P = Q + 1 := ⟨P - 1, by omega⟩
  simp only [Nat.add_sub_cancel, builtFaceArgs]
  refine ⟨by rw [buildGeometry_eq], by rw [buildGeometry_eq], ?_, ?_, ?_, ?_,
    ?_, ?_, ?_, ?_, ?_, ?_, ?_, ?_, ?_⟩
  · intro k1 k2 x h1 h2 hne hx1 hx2
    have hm1 := List.mem_range'_1.mp hx1
    have hm2 := List.mem_range'_1.mp hx2
    rcases Nat.lt_trichotomy k1 k2 with h | h | h
    · have hmul : (k1 + 1) * Q ≤ k2 * Q := Nat.mul_le_mul_right Q (by omega)
      have he : k1 * Q + Q = (k1 + 1) * Q := by ring
      omega
    · exact hne h
    · have hmul : (k2 + 1) * Q ≤ k1 * Q := Nat.mul_le_mul_right Q (by omega)
      have he : k2 * Q + Q = (k2 + 1) * Q := by ring
      omega
  · exact ⟨faceRows_zero _ _, faceRows_zero _ _⟩
  · refine ⟨faceRows_zero _ _, ?_⟩
    exact leftColumn_eq _ Q (length_builtEdge Q 1)
      (by rw [getD_builtEdge_reverse_zero, getD_builtEdge_zero]; rfl)
      (by rw [getD_builtEdge_zero, getD_builtEdge_last]; rfl)
  · exact ⟨faceRows_zero _ _, faceRows_last _ _⟩
  · refine ⟨faceRows_zero _ _, ?_⟩
    exact rightColumn_eq _ Q (length_builtEdge_reverse Q 3)
      (by rw [getD_builtEdge_reverse_last, getD_builtEdge_reverse_zero]; rfl)
      (by rw [getD_builtEdge_last, getD_builtEdge_reverse_last]; rfl)
  · exact ⟨faceRows_last _ _, faceRows_zero _ _⟩
  · refine ⟨faceRows_last _ _, ?_⟩
    exact rightColumn_eq _ Q (length_builtEdge Q 5)
      (by rw [getD_builtEdge_last, getD_builtEdge_zero]; rfl)
      (by rw [getD_builtEdge_reverse_last, getD_builtEdge_last]; rfl)
  · exact ⟨faceRows_last _ _, faceRows_last _ _⟩
  · refine ⟨faceRows_last _ _, ?_⟩
    exact leftColumn_eq _ Q (length_builtEdge_reverse Q 7)
      (by rw [getD_builtEdge_zero, getD_builtEdge_reverse_zero]; rfl)
      (by rw [getD_builtEdge_reverse_zero, getD_builtEdge_reverse_last]; rfl)
  · refine ⟨?_, ?_⟩
    · exact leftColumn_eq _ Q (length_builtEdge Q 8)
        (by rw [getD_builtEdge_zero, getD_builtEdge_zero]; rfl)
        (by rw [getD_builtEdge_zero, getD_builtEdge_last]; rfl)
    · exact rightColumn_eq _ Q (length_builtEdge Q 8)
        (by rw [getD_builtEdge_last, getD_builtEdge_zero]; rfl)
        (by rw [getD_builtEdge_last, getD_builtEdge_last]; rfl)
  · refine ⟨?_, ?_⟩
    · exact rightColumn_eq _ Q (length_builtEdge Q 9)
        (by rw [getD_builtEdge_last, getD_builtEdge_zero]; rfl)
        (by rw [getD_builtEdge_last, getD_builtEdge_last]; rfl)
    · exact leftColumn_eq _ Q (length_builtEdge Q 9)
        (by rw [getD_builtEdge_zero, getD_builtEdge_zero]; rfl)
        (by rw [getD_builtEdge_zero, getD_builtEdge_last]; rfl)
  · refine ⟨?_, ?_⟩
    · exact rightColumn_eq _ Q (length_builtEdge Q 10)
        (by rw [getD_builtEdge_last, getD_builtEdge_zero]; rfl)
        (by rw [getD_builtEdge_last, getD_builtEdge_last]; rfl)
    · exact leftColumn_eq _ Q (length_builtEdge Q 10)
        (by rw [getD_builtEdge_zero, getD_builtEdge_zero]; rfl)
        (by rw [getD_builtEdge_zero, getD_builtEdge_last]; rfl)
  · refine ⟨?_, ?_⟩
    · exact rightColumn_eq _ Q (length_builtEdge Q 11)
        (by rw [getD_builtEdge_last, getD_builtEdge_zero]; rfl)
        (by rw [getD_builtEdge_last, getD_builtEdge_last]; rfl)
    · exact leftColumn_eq _ Q (length_builtEdge Q 11)
        (by rw [getD_builtEdge_zero, getD_builtEdge_zero]; rfl)
        (by rw [getD_builtEdge_zero, getD_builtEdge_last]; rfl)

/-- C7 witness at `P = 2`. -/
theorem shared_edges_consistent_witness :
    1 ≤ 2 ∧ (buildGeometry (α := ℚ) 2).1 = stageF (2 - 1) 6 :=
  ⟨by decide, (shared_edges_consistent 2 (by decide)).1⟩

/-!
## The attribute passes and the full constructor (over `ℝ`)

The constructor validates, builds the cube-space geometry, then runs one
pass per requested attribute over the shared position list.  The position
pass mutates the shared list in place (`Cartesian3.normalize(item, item)`
then `multiplyComponents(item, radii, item)`), which is modelled by
rebinding `positions` before the later passes.
-/

/-- The `VertexFormat` flags consulted by the constructor. -/
structure VertexFormat where
  position : Bool
  st : Bool
  normal : Bool
  tangent : Bool
  binormal : Bool

/-- Flatten a point list into the 3-floats-per-vertex buffer layout. -/
def flatten3 (l : List (Cartesian3 ℝ)) : List ℝ :=
  l.flatMap fun p => [p.x, p.y, p.z]

/-- Read vertex `i` back out of a flat 3-floats-per-vertex buffer. -/
def readVec3 (l : List ℝ) (i : ℕ) : Cartesian3 ℝ :=
  ⟨l.getD (3 * i) 0, l.getD (3 * i + 1) 0, l.getD (3 * i + 2) 0⟩

/-- Modelled from the spec: `Ellipsoid.getOneOverRadii` of the collaborator
`Ellipsoid.js` (not under review), "the point scaled by inverse radii". -/
noncomputable def getOneOverRadii (radii : Cartesian3 ℝ) : Cartesian3 ℝ :=
  ⟨1 / radii.x, 1 / radii.y, 1 / radii.z⟩

/-- Modelled from the spec: `Ellipsoid.getOneOverRadiiSquared` of the
collaborator `Ellipsoid.js` (not under review). -/
noncomputable def getOneOverRadiiSquared (radii : Cartesian3 ℝ) : Cartesian3 ℝ :=
  ⟨1 / (radii.x * radii.x), 1 / (radii.y * radii.y), 1 / (radii.z * radii.z)⟩

/-- Modelled from the spec: `Ellipsoid.geodeticSurfaceNormal` of the
collaborator `Ellipsoid.js` (not under review) — "the normalized gradient of
the ellipsoid's implicit equation at that point", i.e. the point multiplied
componentwise by `oneOverRadiiSquared`, then normalized. -/
noncomputable def geodeticSurfaceNormal (radii : Cartesian3 ℝ)
    (p : Cartesian3 ℝ) : Cartesian3 ℝ :=
  (p.multiplyComponents (getOneOverRadiiSquared radii)).normalize

/-- `Math.atan2` of the host platform, with its standard piecewise
definition in terms of `arctan` (signed zeros and NaN excepted). -/
noncomputable def atan2 (y x : ℝ) : ℝ :=
  if 0 < x then Real.arctan (y / x)
  else if x < 0 ∧ 0 ≤ y then Real.arctan (y / x) + Real.pi
  else if x < 0 ∧ y < 0 then Real.arctan (y / x) - Real.pi
  else if x = 0 ∧ 0 < y then Real.pi / 2
  else if x = 0 ∧ y < 0 then -(Real.pi / 2)
  else 0

/-- The position pass: each entry of the shared position list is normalized
in place and scaled componentwise by the radii. -/
noncomputable def positionPass (radii : Cartesian3 ℝ)
    (positions : List (Cartesian3 ℝ)) : List (Cartesian3 ℝ) :=
  positions.map fun item => (item.normalize).multiplyComponents radii

/-- The texture-coordinate pass: for each position, the spherical normal is
`normalize(position * oneOverRadii)` and the two texels are
`atan2(y, x) / (2π) + 0.5` and `asin(z) / π + 0.5`. -/
noncomputable def stPass (radii : Cartesian3 ℝ)
    (positions : List (Cartesian3 ℝ)) : List ℝ :=
  positions.flatMap fun p =>
    let sphericalNormal := (p.multiplyComponents (getOneOverRadii radii)).normalize
    [atan2 sphericalNormal.y sphericalNormal.x * (1 / (2 * Real.pi)) + 0.5,
     Real.arcsin sphericalNormal.z * (1 / Real.pi) + 0.5]

/-- The normal buffer of the normal/tangent/binormal pass. -/
noncomputable def normalPass (radii : Cartesian3 ℝ)
    (positions : List (Cartesian3 ℝ)) : List ℝ :=
  flatten3 (positions.map fun p => geodeticSurfaceNormal radii p)

/-- The tangent buffer: `cross(UNIT_Z, normal)` per vertex (no
normalization in the code). -/
noncomputable def tangentPass (radii : Cartesian3 ℝ)
    (positions : List (Cartesian3 ℝ)) : List ℝ :=
  flatten3 (positions.map fun p => unitZ.cross (geodeticSurfaceNormal radii p))

/-- The binormal buffer: `cross(normal, tangent)` per vertex, sharing the
same geodetic normal. -/
noncomputable def binormalPass (radii : Cartesian3 ℝ)
    (positions : List (Cartesian3 ℝ)) : List ℝ :=
  flatten3 (positions.map fun p =>
    (geodeticSurfaceNormal radii p).cross
      (unitZ.cross (geodeticSurfaceNormal radii p)))

/-- The observable output of one `EllipsoidGeometry` construction: one
optional flat buffer per requested attribute, and the triangle index list. -/
structure EllipsoidGeometry where
  position : Option (List ℝ)
  st : Option (List ℝ)
  normal : Option (List ℝ)
  tangent : Option (List ℝ)
  binormal : Option (List ℝ)
  indices : List ℕ

/-- The `EllipsoidGeometry` constructor.  Partition validation is the code's
own (`numberOfPartitions <= 0` throws a `DeveloperError` before the buffers
are allocated); the radius validation is modelled from the spec, since the
`Ellipsoid` collaborator that performs it is not under review ("InvalidArgument:
partition count ≤ 0, or any radius ≤ 0 — fails before any buffer
allocation").  On success, the cube-space geometry is built, the position
pass (when requested) rescales the shared position list in place, and the
remaining passes read the possibly rescaled list. -/
noncomputable def makeEllipsoidGeometry (radii : Cartesian3 ℝ)
    (numberOfPartitions : ℤ) (vertexFormat : VertexFormat) :
    Except String EllipsoidGeometry :=
  if numberOfPartitions ≤ 0 then
    Except.error "options.numberOfPartitions must be greater than zero."
  else if radii.x ≤ 0 ∨ radii.y ≤ 0 ∨ radii.z ≤ 0 then
    Except.error "All ellipsoid radii must be greater than zero."
  else
    let build := buildGeometry (α := ℝ) numberOfPartitions.toNat
    let positions :=
      if vertexFormat.position then positionPass radii build.1 else build.1
    Except.ok
      { position :=
          if vertexFormat.position then some (flatten3 positions) else none
        st := if vertexFormat.st then some (stPass radii positions) else none
        normal :=
          if vertexFormat.normal then some (normalPass radii positions) else none
        tangent :=
          if vertexFormat.tangent then some (tangentPass radii positions) else none
        binormal :=
          if vertexFormat.binormal then some (binormalPass radii positions) else none
        indices := build.2 }

/-- C3.  Construction fails with the InvalidArgument condition when the
partition count is `≤ 0` or any radius is `≤ 0`; the failure is an
`Except.error`, so no buffer of the success record is ever produced (the
checks precede the geometry construction in the definition). -/
theorem invalid_arguments_reject (radii : Cartesian3 ℝ)
    (numberOfPartitions : ℤ) (vf : VertexFormat)
    (h : numberOfPartitions ≤ 0 ∨ radii.x ≤ 0 ∨ radii.y ≤ 0 ∨ radii.z ≤ 0) :
    ∃ msg, makeEllipsoidGeometry radii numberOfPartitions vf =
      Except.error msg := by
  rw [makeEllipsoidGeometry]
  by_cases hP : numberOfPartitions ≤ 0
  · rw [if_pos hP]
    exact ⟨_, rfl⟩
  · rw [if_neg hP, if_pos (by tauto)]
    exact ⟨_, rfl⟩

/-- C3 witness: `partitions = 0` must fail. -/
theorem invalid_arguments_reject_witness :
    ((0 : ℤ) ≤ 0 ∨ (⟨1, 1, 1⟩ : Cartesian3 ℝ).x ≤ 0 ∨
      (⟨1, 1, 1⟩ : Cartesian3 ℝ).y ≤ 0 ∨ (⟨1, 1, 1⟩ : Cartesian3 ℝ).z ≤ 0) ∧
      ∃ msg, makeEllipsoidGeometry ⟨1, 1, 1⟩ 0 ⟨true, true, true, true, true⟩ =
        Except.error msg :=
  ⟨Or.inl le_rfl,
   invalid_arguments_reject ⟨1, 1, 1⟩ 0 ⟨true, true, true, true, true⟩
     (Or.inl le_rfl)⟩

/-- C2 (amended).  Each of the st/normal/tangent/binormal buffers is
independent of which of the other non-position attributes are requested:
two constructions that agree on the position flag produce identical buffers
for every commonly requested non-position attribute.  (Independence from the
position flag itself fails; see the counterexample.) -/
theorem attribute_independence_among_nonposition
    (radii : Cartesian3 ℝ) (numberOfPartitions : ℤ) (vf1 vf2 : VertexFormat)
    (hpos : vf1.position = vf2.position) :
    (vf1.st = true → vf2.st = true →
      Except.map EllipsoidGeometry.st
          (makeEllipsoidGeometry radii numberOfPartitions vf1) =
        Except.map EllipsoidGeometry.st
          (makeEllipsoidGeometry radii numberOfPartitions vf2)) ∧
    (vf1.normal = true → vf2.normal = true →
      Except.map EllipsoidGeometry.normal
          (makeEllipsoidGeometry radii numberOfPartitions vf1) =
        Except.map EllipsoidGeometry.normal
          (makeEllipsoidGeometry radii numberOfPartitions vf2)) ∧
    (vf1.tangent = true → vf2.tangent = true →
      Except.map EllipsoidGeometry.tangent
          (makeEllipsoidGeometry radii numberOfPartitions vf1) =
        Except.map EllipsoidGeometry.tangent
          (makeEllipsoidGeometry radii numberOfPartitions vf2)) ∧
    (vf1.binormal = true → vf2.binormal = true →
      Except.map EllipsoidGeometry.binormal
          (makeEllipsoidGeometry radii numberOfPartitions vf1) =
        Except.map EllipsoidGeometry.binormal
          (makeEllipsoidGeometry radii numberOfPartitions vf2)) := by
  by_cases hP : numberOfPartitions ≤ 0
  · simp [makeEllipsoidGeometry, hP]
  · by_cases hR : radii.x ≤ 0 ∨ radii.y ≤ 0 ∨ radii.z ≤ 0
    · simp [makeEllipsoidGeometry, hP, hR]
    · refine ⟨?_, ?_, ?_, ?_⟩ <;> intro h1 h2 <;>
        simp [makeEllipsoidGeometry, hP, hR, h1, h2, Except.map, hpos]

/-- C2 witness: two all-attribute requests with equal position flags. -/
theorem attribute_independence_among_nonposition_witness :
    ((⟨true, true, true, true, true⟩ : VertexFormat).position =
      (⟨true, true, true, true, true⟩ : VertexFormat).position) ∧
      ((⟨true, true, true, true, true⟩ : VertexFormat).st = true →
        (⟨true, true, true, true, true⟩ : VertexFormat).st = true →
        Except.map EllipsoidGeometry.st
            (makeEllipsoidGeometry ⟨2, 1, 1⟩ 4 ⟨true, true, true, true, true⟩) =
          Except.map EllipsoidGeometry.st
            (makeEllipsoidGeometry ⟨2, 1, 1⟩ 4 ⟨true, true, true, true, true⟩)) :=
  ⟨rfl,
   (attribute_independence_among_nonposition ⟨2, 1, 1⟩ 4
     ⟨true, true, true, true, true⟩ ⟨true, true, true, true, true⟩ rfl).1⟩

/-!
## Concrete evaluation helpers over `ℝ`
-/

theorem normalize_eval (p : Cartesian3 ℝ) (s : ℝ)
    (hs : p.magnitudeSquared = s) :
    p.normalize = ⟨p.x * (1 / Real.sqrt s), p.y * (1 / Real.sqrt s),
      p.z * (1 / Real.sqrt s)⟩ := by
  rw [Cartesian3.normalize, Cartesian3.magnitude, hs, Cartesian3.multiplyByScalar]

theorem positionPass_cons (radii p : Cartesian3 ℝ) (rest : List (Cartesian3 ℝ)) :
    positionPass radii (p :: rest) =
      (p.normalize).multiplyComponents radii :: positionPass radii rest := rfl

theorem stPass_getD_one (radii p : Cartesian3 ℝ) (rest : List (Cartesian3 ℝ)) :
    (stPass radii (p :: rest)).getD 1 0 =
      Real.arcsin ((p.multiplyComponents (getOneOverRadii radii)).normalize).z *
        (1 / Real.pi) + 0.5 := by
  rw [stPass]
  simp

/-- C2 counterexample.  For the non-spherical ellipsoid `(2, 1, 1)` and
`partitions = 1`, the texture-coordinate buffer computed when the position
attribute is also requested differs from the one computed when it is not:
the position pass rescales the shared position list in place, so the later
st pass reads different points.  This refutes the claimed independence. -/
theorem st_depends_on_position_flag :
    Except.map EllipsoidGeometry.st
        (makeEllipsoidGeometry ⟨2, 1, 1⟩ 1 ⟨true, true, false, false, false⟩) ≠
      Except.map EllipsoidGeometry.st
        (makeEllipsoidGeometry ⟨2, 1, 1⟩ 1 ⟨false, true, false, false, false⟩) := by
  have hbuild : buildGeometry (α := ℝ) 1 = (cubeCorners, builtIndices 0) := by
    have h : buildGeometry (α := ℝ) (0 + 1) = (stageF 0 6, builtIndices 0) :=
      buildGeometry_eq 0
    have h2 : stageF (α := ℝ) 0 6 = cubeCorners := rfl
    rw [h2] at h
    exact h
  have hA : makeEllipsoidGeometry ⟨2, 1, 1⟩ 1 ⟨true, true, false, false, false⟩ =
      Except.ok
        { position := some (flatten3 (positionPass ⟨2, 1, 1⟩ cubeCorners))
          st := some (stPass ⟨2, 1, 1⟩ (positionPass ⟨2, 1, 1⟩ cubeCorners))
          normal := none
          tangent := none
          binormal := none
          indices := builtIndices 0 } := by
    rw [makeEllipsoidGeometry, if_neg (by norm_num),
      if_neg (by push_neg; norm_num)]
    simp [hbuild]
  have hB : makeEllipsoidGeometry ⟨2, 1, 1⟩ 1 ⟨false, true, false, false, false⟩ =
      Except.ok
        { position := none
          st := some (stPass ⟨2, 1, 1⟩ cubeCorners)
          normal := none
          tangent := none
          binormal := none
          indices := builtIndices 0 } := by
    rw [makeEllipsoidGeometry, if_neg (by norm_num),
      if_neg (by push_neg; norm_num)]
    simp [hbuild]
  intro hcontra
  rw [hA, hB] at hcontra
  simp only [Except.map, Except.ok.injEq, Option.some.injEq] at hcontra
  have hv := congrArg (fun l => l.getD 1 0) hcontra
  simp only at hv
  rw [show (cubeCorners : List (Cartesian3 ℝ)) =
      ⟨-1, 0, -1⟩ :: [⟨0, -1, -1⟩, ⟨1, 0, -1⟩, ⟨0, 1, -1⟩,
        ⟨-1, 0, 1⟩, ⟨0, -1, 1⟩, ⟨1, 0, 1⟩, ⟨0, 1, 1⟩] from rfl,
    positionPass_cons, stPass_getD_one, stPass_getD_one] at hv
  have ha0 : (0 : ℝ) < Real.sqrt 2 := Real.sqrt_pos.mpr (by norm_num)
  have ha2 : Real.sqrt 2 * Real.sqrt 2 = 2 := Real.mul_self_sqrt (by norm_num)
  have hb0 : (0 : ℝ) < Real.sqrt (5 / 4) := Real.sqrt_pos.mpr (by norm_num)
  have hb2 : Real.sqrt (5 / 4) * Real.sqrt (5 / 4) = 5 / 4 :=
    Real.mul_self_sqrt (by norm_num)
  have e1 : Cartesian3.normalize (⟨-1, 0, -1⟩ : Cartesian3 ℝ) =
      ⟨-(1 / Real.sqrt 2), 0, -(1 / Real.sqrt 2)⟩ := by
    rw [normalize_eval _ 2 (by rw [Cartesian3.magnitudeSquared]; norm_num)]
    norm_num
  have e3 : getOneOverRadii ⟨2, 1, 1⟩ = ⟨1 / 2, 1, 1⟩ := by
    rw [getOneOverRadii]
    norm_num
  have e4 : ((⟨-(1 / Real.sqrt 2), 0, -(1 / Real.sqrt 2)⟩ :
        Cartesian3 ℝ).multiplyComponents ⟨2, 1, 1⟩).multiplyComponents
        ⟨1 / 2, 1, 1⟩ = ⟨-(1 / Real.sqrt 2), 0, -(1 / Real.sqrt 2)⟩ := by
    rw [Cartesian3.multiplyComponents, Cartesian3.multiplyComponents]
    simp only [Cartesian3.mk.injEq]
    refine ⟨by ring, by ring, by ring⟩
  have hms : (⟨-(1 / Real.sqrt 2), 0, -(1 / Real.sqrt 2)⟩ :
      Cartesian3 ℝ).magnitudeSquared = 1 := by
    rw [Cartesian3.magnitudeSquared]
    have hne : Real.sqrt 2 ≠ 0 := ne_of_gt ha0
    field_simp
  have e5 : (⟨-(1 / Real.sqrt 2), 0, -(1 / Real.sqrt 2)⟩ :
      Cartesian3 ℝ).normalize = ⟨-(1 / Real.sqrt 2), 0, -(1 / Real.sqrt 2)⟩ := by
    rw [normalize_eval _ 1 hms]
    norm_num [Real.sqrt_one]
  have hsAz : ((((Cartesian3.normalize (⟨-1, 0, -1⟩ : Cartesian3 ℝ)).multiplyComponents
      ⟨2, 1, 1⟩).multiplyComponents (getOneOverRadii ⟨2, 1, 1⟩)).normalize).z =
      -(1 / Real.sqrt 2) := by
    rw [e1, e3, e4, e5]
  have e6 : (⟨-1, 0, -1⟩ : Cartesian3 ℝ).multiplyComponents ⟨1 / 2, 1, 1⟩ =
      ⟨-(1 / 2), 0, -1⟩ := by
    rw [Cartesian3.multiplyComponents]
    norm_num
  have hsBz : (((⟨-1, 0, -1⟩ : Cartesian3 ℝ).multiplyComponents
      (getOneOverRadii ⟨2, 1, 1⟩)).normalize).z = -(1 / Real.sqrt (5 / 4)) := by
    rw [e3, e6, normalize_eval _ (5 / 4)
      (by rw [Cartesian3.magnitudeSquared]; norm_num)]
    norm_num
  rw [hsAz, hsBz] at hv
  have hpi : (1 / Real.pi) ≠ 0 := one_div_ne_zero Real.pi_ne_zero
  have harcsin : Real.arcsin (-(1 / Real.sqrt 2)) =
      Real.arcsin (-(1 / Real.sqrt (5 / 4))) := by
    have h' : Real.arcsin (-(1 / Real.sqrt 2)) * (1 / Real.pi) =
        Real.arcsin (-(1 / Real.sqrt (5 / 4))) * (1 / Real.pi) := by
      linarith
    exact mul_right_cancel₀ hpi h'
  have ha1 : (1 : ℝ) ≤ Real.sqrt 2 := by nlinarith [ha0, ha2]
  have hb1 : (1 : ℝ) ≤ Real.sqrt (5 / 4) := by nlinarith [hb0, hb2]
  have hA1 : (-1 : ℝ) ≤ -(1 / Real.sqrt 2) := by
    have h : (1 : ℝ) / Real.sqrt 2 ≤ 1 := by
      rw [div_le_one ha0]
      exact ha1
    linarith
  have hA2 : -(1 / Real.sqrt 2) ≤ (1 : ℝ) := by
    have h : (0 : ℝ) < 1 / Real.sqrt 2 := by positivity
    linarith
  have hB1 : (-1 : ℝ) ≤ -(1 / Real.sqrt (5 / 4)) := by
    have h : (1 : ℝ) / Real.sqrt (5 / 4) ≤ 1 := by
      rw [div_le_one hb0]
      exact hb1
    linarith
  have hB2 : -(1 / Real.sqrt (5 / 4)) ≤ (1 : ℝ) := by
    have h : (0 : ℝ) < 1 / Real.sqrt (5 / 4) := by positivity
    linarith
  have hzeq : -(1 / Real.sqrt 2) = -(1 / Real.sqrt (5 / 4)) :=
    (Real.arcsin_inj hA1 hA2 hB1 hB2).mp harcsin
  have hss : Real.sqrt 2 = Real.sqrt (5 / 4) := by
    have h1 : (1 : ℝ) / Real.sqrt 2 = 1 / Real.sqrt (5 / 4) := by linarith
    rw [div_eq_div_iff (ne_of_gt ha0) (ne_of_gt hb0)] at h1
    linarith
  nlinarith [ha2, hb2, hss]

/-!
## Buffer read-back helpers
-/

theorem buildGeometry_one :
    buildGeometry (α := ℝ) 1 = (cubeCorners, builtIndices 0) := by
  have h : buildGeometry (α := ℝ) (0 + 1) = (stageF 0 6, builtIndices 0) :=
    buildGeometry_eq 0
  have h2 : stageF (α := ℝ) 0 6 = cubeCorners := rfl
  rw [h2] at h
  exact h

theorem getD_map_lt {β : Type} (f : Cartesian3 ℝ → β) (l : List (Cartesian3 ℝ))
    (i : ℕ) (h : i < l.length) (d : β) :
    (l.map f).getD i d = f (l.getD i czero) := by
  rw [List.getD_eq_getElem _ _ (by simpa using h), List.getElem_map,
    List.getD_eq_getElem _ _ h]

theorem readVec3_flatten3 (l : List (Cartesian3 ℝ)) (i : ℕ) (h : i < l.length) :
    readVec3 (flatten3 l) i = l.getD i czero := by
  induction l generalizing i with
  | nil => simp at h
  | cons p t ih =>
      have hfl : flatten3 (p :: t) = p.x :: p.y :: p.z :: flatten3 t := rfl
      cases i with
      | zero => rfl
      | succ j =>
          have hj : j < t.length := by simpa using h
          have k1 : 3 * (j + 1) = 3 * j + 1 + 1 + 1 := by ring
          have k2 : 3 * (j + 1) + 1 = 3 * j + 1 + 1 + 1 + 1 := by ring
          have k3 : 3 * (j + 1) + 2 = 3 * j + 2 + 1 + 1 + 1 := by ring
          rw [readVec3, hfl, k3, k2, k1]
          simp only [List.getD_cons_succ]
          exact ih j hj

theorem length_positionPass (radii : Cartesian3 ℝ) (l : List (Cartesian3 ℝ)) :
    (positionPass radii l).length = l.length := by
  simp [positionPass]

theorem normalize_corner0 :
    Cartesian3.normalize (⟨-1, 0, -1⟩ : Cartesian3 ℝ) =
      ⟨-(1 / Real.sqrt 2), 0, -(1 / Real.sqrt 2)⟩ := by
  rw [normalize_eval _ 2 (by rw [Cartesian3.magnitudeSquared]; norm_num)]
  norm_num

/-- C4 (amended).  For every successful construction with the
normal/tangent/binormal attributes requested, the emitted tangent at every
vertex equals `cross(UNIT_Z, normal)` — the raw, unnormalized cross
product — and the emitted binormal equals `cross(normal, tangent)`, with
the geodetic normal shared by all three buffers. -/
theorem tangent_binormal_cross_formulas (radii : Cartesian3 ℝ) (n : ℤ)
    (vf : VertexFormat) (hn : 0 < n)
    (hx : 0 < radii.x) (hy : 0 < radii.y) (hz : 0 < radii.z)
    (hnf : vf.normal = true) (htf : vf.tangent = true)
    (hbf : vf.binormal = true) :
    ∃ g, makeEllipsoidGeometry radii n vf = Except.ok g ∧
      ∃ ns ts bs, g.normal = some ns ∧ g.tangent = some ts ∧
        g.binormal = some bs ∧
        ∀ i < (buildGeometry (α := ℝ) n.toNat).1.length,
          readVec3 ts i = unitZ.cross (readVec3 ns i) ∧
          readVec3 bs i = (readVec3 ns i).cross (readVec3 ts i) := by
  have key : ∀ ps : List (Cartesian3 ℝ),
      (buildGeometry (α := ℝ) n.toNat).1.length = ps.length →
      ∀ i < (buildGeometry (α := ℝ) n.toNat).1.length,
        readVec3 (tangentPass radii ps) i =
          unitZ.cross (readVec3 (normalPass radii ps) i) ∧
        readVec3 (binormalPass radii ps) i =
          (readVec3 (normalPass radii ps) i).cross
            (readVec3 (tangentPass radii ps) i) := by
    intro ps hlen i hi
    have hi' : i < ps.length := by omega
    constructor
    · rw [tangentPass, normalPass, readVec3_flatten3 _ i (by simpa using hi'),
        readVec3_flatten3 _ i (by simpa using hi'),
        getD_map_lt _ _ i hi', getD_map_lt _ _ i hi']
    · rw [binormalPass, tangentPass, normalPass,
        readVec3_flatten3 _ i (by simpa using hi'),
        readVec3_flatten3 _ i (by simpa using hi'),
        readVec3_flatten3 _ i (by simpa using hi'),
        getD_map_lt _ _ i hi', getD_map_lt _ _ i hi', getD_map_lt _ _ i hi']
  rw [makeEllipsoidGeometry, if_neg (by omega),
    if_neg (by push_neg; exact ⟨hx, hy, hz⟩)]
  by_cases hp : vf.position = true
  · refine ⟨_, rfl,
      normalPass radii (positionPass radii (buildGeometry (α := ℝ) n.toNat).1),
      tangentPass radii (positionPass radii (buildGeometry (α := ℝ) n.toNat).1),
      binormalPass radii (positionPass radii (buildGeometry (α := ℝ) n.toNat).1),
      by simp [hnf, hp], by simp [htf, hp], by simp [hbf, hp],
      key _ (by rw [length_positionPass])⟩
  · refine ⟨_, rfl,
      normalPass radii (buildGeometry (α := ℝ) n.toNat).1,
      tangentPass radii (buildGeometry (α := ℝ) n.toNat).1,
      binormalPass radii (buildGeometry (α := ℝ) n.toNat).1,
      by simp [hnf, hp], by simp [htf, hp], by simp [hbf, hp],
      key _ rfl⟩

/-- C4 witness at radii `(2,1,1)`, `P = 2`, all attributes requested. -/
theorem tangent_binormal_cross_formulas_witness :
    ((0 : ℤ) < 2 ∧ (0 : ℝ) < (⟨2, 1, 1⟩ : Cartesian3 ℝ).x ∧
      (0 : ℝ) < (⟨2, 1, 1⟩ : Cartesian3 ℝ).y ∧
      (0 : ℝ) < (⟨2, 1, 1⟩ : Cartesian3 ℝ).z) ∧
      ∃ g, makeEllipsoidGeometry ⟨2, 1, 1⟩ 2 ⟨true, true, true, true, true⟩ =
          Except.ok g ∧
        ∃ ns ts bs, g.normal = some ns ∧ g.tangent = some ts ∧
          g.binormal = some bs ∧
          ∀ i < (buildGeometry (α := ℝ) (2 : ℤ).toNat).1.length,
            readVec3 ts i = unitZ.cross (readVec3 ns i) ∧
            readVec3 bs i = (readVec3 ns i).cross (readVec3 ts i) :=
  ⟨⟨by norm_num, by norm_num, by norm_num, by norm_num⟩,
   tangent_binormal_cross_formulas ⟨2, 1, 1⟩ 2 ⟨true, true, true, true, true⟩
     (by norm_num) (by norm_num) (by norm_num) (by norm_num) rfl rfl rfl⟩

/-- C4 counterexample.  On the unit sphere with `P = 1` and
normal/tangent/binormal requested, the tangent emitted for vertex 0 has
squared magnitude `1/2` — it is not a unit vector — and differs from
`normalize(cross(UNIT_Z, normal))`: the code never normalizes the cross
product, refuting the claim as stated. -/
theorem tangent_not_normalized :
    ∃ g, makeEllipsoidGeometry ⟨1, 1, 1⟩ 1 ⟨false, false, true, true, true⟩ =
        Except.ok g ∧
      ∃ ts, g.tangent = some ts ∧
        (readVec3 ts 0).magnitudeSquared ≠ 1 ∧
        readVec3 ts 0 ≠
          (unitZ.cross (geodeticSurfaceNormal ⟨1, 1, 1⟩ ⟨-1, 0, -1⟩)).normalize := by
  have ha0 : (0 : ℝ) < Real.sqrt 2 := Real.sqrt_pos.mpr (by norm_num)
  have ha2 : Real.sqrt 2 * Real.sqrt 2 = 2 := Real.mul_self_sqrt (by norm_num)
  have hane : Real.sqrt 2 ≠ 0 := ne_of_gt ha0
  have hmk : makeEllipsoidGeometry ⟨1, 1, 1⟩ 1 ⟨false, false, true, true, true⟩ =
      Except.ok
        { position := none
          st := none
          normal := some (normalPass ⟨1, 1, 1⟩ cubeCorners)
          tangent := some (tangentPass ⟨1, 1, 1⟩ cubeCorners)
          binormal := some (binormalPass ⟨1, 1, 1⟩ cubeCorners)
          indices := builtIndices 0 } := by
    rw [makeEllipsoidGeometry, if_neg (by norm_num),
      if_neg (by push_neg; norm_num)]
    simp [buildGeometry_one]
  refine ⟨_, hmk, tangentPass ⟨1, 1, 1⟩ cubeCorners, rfl, ?_, ?_⟩
  all_goals
    have hrd : readVec3 (tangentPass ⟨1, 1, 1⟩ cubeCorners) 0 =
        unitZ.cross (geodeticSurfaceNormal ⟨1, 1, 1⟩ ⟨-1, 0, -1⟩) := rfl
    have hsq : getOneOverRadiiSquared (⟨1, 1, 1⟩ : Cartesian3 ℝ) = ⟨1, 1, 1⟩ := by
      rw [getOneOverRadiiSquared]
      norm_num
    have hmc : (⟨-1, 0, -1⟩ : Cartesian3 ℝ).multiplyComponents ⟨1, 1, 1⟩ =
        ⟨-1, 0, -1⟩ := by
      rw [Cartesian3.multiplyComponents]
      norm_num
    have hgeo : geodeticSurfaceNormal (⟨1, 1, 1⟩ : Cartesian3 ℝ) ⟨-1, 0, -1⟩ =
        ⟨-(1 / Real.sqrt 2), 0, -(1 / Real.sqrt 2)⟩ := by
      rw [geodeticSurfaceNormal, hsq, hmc, normalize_corner0]
    have hcross : unitZ.cross
        (⟨-(1 / Real.sqrt 2), 0, -(1 / Real.sqrt 2)⟩ : Cartesian3 ℝ) =
        ⟨0, -(1 / Real.sqrt 2), 0⟩ := by
      rw [unitZ, Cartesian3.cross]
      norm_num
    have hhalf : (1 / Real.sqrt 2) * (1 / Real.sqrt 2) = 1 / 2 := by
      field_simp
  · rw [hrd, hgeo, hcross, Cartesian3.magnitudeSquared]
    intro habs
    rw [show -(1 / Real.sqrt 2) * -(1 / Real.sqrt 2) =
        (1 / Real.sqrt 2) * (1 / Real.sqrt 2) from by ring, hhalf] at habs
    norm_num at habs
  · rw [hrd, hgeo, hcross]
    have hnorm : (⟨0, -(1 / Real.sqrt 2), 0⟩ : Cartesian3 ℝ).normalize =
        ⟨0, -1, 0⟩ := by
      have hms : (⟨0, -(1 / Real.sqrt 2), 0⟩ : Cartesian3 ℝ).magnitudeSquared =
          1 / 2 := by
        rw [Cartesian3.magnitudeSquared]
        rw [show -(1 / Real.sqrt 2) * -(1 / Real.sqrt 2) =
            (1 / Real.sqrt 2) * (1 / Real.sqrt 2) from by ring, hhalf]
        ring
      rw [normalize_eval _ (1 / 2) hms]
      have hs : Real.sqrt (1 / 2) = 1 / Real.sqrt 2 := by
        rw [show (1 : ℝ) / 2 = 2⁻¹ from by norm_num, Real.sqrt_inv]
        norm_num
      rw [hs]
      simp only [Cartesian3.mk.injEq]
      refine ⟨by ring, ?_, by ring⟩
      field_simp
    rw [hnorm]
    simp only [ne_eq, Cartesian3.mk.injEq, not_and]
    intro h1 h2
    exfalso
    have : (1 : ℝ) / Real.sqrt 2 = 1 := by linarith
    rw [div_eq_one_iff_eq hane] at this
    rw [← this] at ha2
    norm_num at ha2

theorem magnitudeSquared_multiplyByScalar (v : Cartesian3 ℝ) (s : ℝ) :
    (v.multiplyByScalar s).magnitudeSquared = v.magnitudeSquared * (s * s) := by
  rw [Cartesian3.multiplyByScalar, Cartesian3.magnitudeSquared,
    Cartesian3.magnitudeSquared]
  ring

theorem magSq_normalize (p : Cartesian3 ℝ) (h : 0 < p.magnitudeSquared) :
    p.normalize.magnitudeSquared = 1 := by
  have hm : Real.sqrt p.magnitudeSquared * Real.sqrt p.magnitudeSquared =
      p.magnitudeSquared := Real.mul_self_sqrt (le_of_lt h)
  have hm0 : Real.sqrt p.magnitudeSquared ≠ 0 :=
    ne_of_gt (Real.sqrt_pos.mpr h)
  rw [Cartesian3.normalize, magnitudeSquared_multiplyByScalar,
    Cartesian3.magnitude]
  field_simp

theorem multiplyComponents_one (v : Cartesian3 ℝ) :
    v.multiplyComponents ⟨1, 1, 1⟩ = v := by
  rw [Cartesian3.multiplyComponents]
  simp

/-- C8.  Unit sphere, `partitions = 1`, position-only: the construction
succeeds with exactly the 8 cube corners as vertices (each normalized to
squared distance 1 from the origin) and exactly 36 indices — two triangles
per face built directly from the four corner indices of that face. -/
theorem unit_sphere_one_partition :
    ∃ g, makeEllipsoidGeometry ⟨1, 1, 1⟩ 1 ⟨true, false, false, false, false⟩ =
        Except.ok g ∧
      g.indices = [0, 1, 5, 0, 5, 4, 1, 2, 6, 1, 6, 5, 2, 3, 7, 2, 7, 6,
        3, 0, 4, 3, 4, 7, 4, 5, 6, 4, 6, 7, 1, 0, 3, 1, 3, 2] ∧
      g.indices.length = 36 ∧
      ∃ ps : List (Cartesian3 ℝ), g.position = some (flatten3 ps) ∧
        ps.length = 8 ∧ ∀ p ∈ ps, p.magnitudeSquared = 1 := by
  have hmk : makeEllipsoidGeometry ⟨1, 1, 1⟩ 1 ⟨true, false, false, false, false⟩ =
      Except.ok
        { position := some (flatten3 (positionPass ⟨1, 1, 1⟩ cubeCorners))
          st := none
          normal := none
          tangent := none
          binormal := none
          indices := builtIndices 0 } := by
    rw [makeEllipsoidGeometry, if_neg (by norm_num),
      if_neg (by push_neg; norm_num)]
    simp [buildGeometry_one]
  refine ⟨_, hmk, by decide, by decide,
    positionPass ⟨1, 1, 1⟩ cubeCorners, rfl, rfl, ?_⟩
  intro p hp
  simp only [positionPass, cubeCorners, List.map_cons, List.map_nil,
    multiplyComponents_one, List.mem_cons, List.not_mem_nil, or_false] at hp
  rcases hp with h | h | h | h | h | h | h | h <;> rw [h] <;>
    exact magSq_normalize _ (by rw [Cartesian3.magnitudeSquared]; norm_num)

/-!
## Indexing into a face interior block
-/

theorem getD_grid {α : Type} [Field α] (g : ℕ → ℕ → Cartesian3 α)
    (s1 s2 m1 m2 a b : ℕ) (ha : a < m1) (hb : b < m2) :
    ((List.range' s1 m1).flatMap fun j =>
        (List.range' s2 m2).map fun i => g i j).getD (a * m2 + b) czero =
      g (s2 + b) (s1 + a) := by
  induction m1 generalizing s1 a with
  | zero => omega
  | succ m ih =>
      rw [List.range'_succ, List.flatMap_cons]
      cases a with
      | zero =>
          rw [List.getD_append _ _ _ _ (by simp; omega)]
          rw [List.getD_eq_getElem _ _ (by simp; omega), List.getElem_map,
            List.getElem_range']
          simp
      | succ a' =>
          have hfirst : ((List.range' s2 m2).map fun i => g i s1).length = m2 := by
            simp
          have hmul : (a' + 1) * m2 = a' * m2 + m2 := by ring
          rw [List.getD_append_right _ _ _ _ (by rw [hfirst]; omega)]
          rw [hfirst]
          have hidx : (a' + 1) * m2 + b - m2 = a' * m2 + b := by omega
          rw [hidx, ih (s1 + 1) a' (by omega)]
          have : s1 + 1 + a' = s1 + (a' + 1) := by omega
          rw [this]

theorem getD_faceInteriorPoints {α : Type} [Field α]
    (o xA yA : Cartesian3 α) (m a b : ℕ) (ha : a < m) (hb : b < m) :
    (faceInteriorPoints o xA yA (m + 1)).getD (a * m + b) czero =
      facePoint o xA yA (m + 1) (1 + b) (1 + a) := by
  rw [faceInteriorPoints, Nat.add_sub_cancel]
  exact getD_grid _ 1 1 m m a b ha hb

/-- The tangent `cross(UNIT_Z, n)` and the binormal `cross(n, tangent)`
vanish whenever the point sits on the z axis, because its geodetic normal
is then vertical. -/
theorem cross_unitZ_vertical (radii q : Cartesian3 ℝ)
    (hqx : q.x = 0) (hqy : q.y = 0) :
    unitZ.cross (geodeticSurfaceNormal radii q) = czero ∧
    (geodeticSurfaceNormal radii q).cross
      (unitZ.cross (geodeticSurfaceNormal radii q)) = czero := by
  have hn : (geodeticSurfaceNormal radii q).x = 0 ∧
      (geodeticSurfaceNormal radii q).y = 0 := by
    rw [geodeticSurfaceNormal, Cartesian3.normalize, Cartesian3.multiplyByScalar,
      Cartesian3.multiplyComponents]
    constructor <;> simp [hqx, hqy]
  obtain ⟨hnx, hny⟩ := hn
  constructor
  · rw [unitZ, Cartesian3.cross, czero]
    simp only [Cartesian3.mk.injEq]
    refine ⟨by rw [hny]; ring, by rw [hnx]; ring, by ring⟩
  · rw [unitZ, Cartesian3.cross, Cartesian3.cross, czero]
    simp only [Cartesian3.mk.injEq]
    refine ⟨by rw [hnx, hny]; ring, by rw [hnx, hny]; ring,
      by rw [hnx, hny]; ring⟩

/-- C10.  For every even `P ≥ 2`, the top and bottom cap faces contain the
interior vertices `(0,0,1)` and `(0,0,-1)` at grid cell `i = j = P/2`
(position-list index `8 + 12(P-1) + f(P-1)² + (P/2-1)P` for face `f = 4`
resp. `5`), and the tangent and binormal buffers emitted for those two
vertices are the zero vector: the geodetic normal there is vertical, so its
cross product with the fixed up axis vanishes. -/
theorem pole_tangents_vanish (radii : Cartesian3 ℝ) (P : ℤ)
    (vf : VertexFormat) (hP : 2 ≤ P) (heven : P % 2 = 0)
    (hx : 0 < radii.x) (hy : 0 < radii.y) (hz : 0 < radii.z)
    (htf : vf.tangent = true) (hbf : vf.binormal = true) :
    ∃ g, makeEllipsoidGeometry radii P vf = Except.ok g ∧
      (buildGeometry (α := ℝ) P.toNat).1.getD
          (8 + 12 * (P.toNat - 1) + 4 * ((P.toNat - 1) * (P.toNat - 1)) +
            (P.toNat / 2 - 1) * P.toNat) czero = ⟨0, 0, 1⟩ ∧
      (buildGeometry (α := ℝ) P.toNat).1.getD
          (8 + 12 * (P.toNat - 1) + 5 * ((P.toNat - 1) * (P.toNat - 1)) +
            (P.toNat / 2 - 1) * P.toNat) czero = ⟨0, 0, -1⟩ ∧
      ∃ ts bs, g.tangent = some ts ∧ g.binormal = some bs ∧
        readVec3 ts (8 + 12 * (P.toNat - 1) + 4 * ((P.toNat - 1) * (P.toNat - 1)) +
          (P.toNat / 2 - 1) * P.toNat) = czero ∧
        readVec3 bs (8 + 12 * (P.toNat - 1) + 4 * ((P.toNat - 1) * (P.toNat - 1)) +
          (P.toNat / 2 - 1) * P.toNat) = czero ∧
        readVec3 ts (8 + 12 * (P.toNat - 1) + 5 * ((P.toNat - 1) * (P.toNat - 1)) +
          (P.toNat / 2 - 1) * P.toNat) = czero ∧
        readVec3 bs (8 + 12 * (P.toNat - 1) + 5 * ((P.toNat - 1) * (P.toNat - 1)) +
          (P.toNat / 2 - 1) * P.toNat) = czero := by
  obtain ⟨s, hs⟩ : ∃ s, P.toNat = 2 * s + 2 := ⟨P.toNat / 2 - 1, by omega⟩
  rw [hs, show (2 * s + 2) / 2 - 1 = s from by omega,
    show 2 * s + 2 - 1 = 2 * s + 1 from by omega]
  have hbg : buildGeometry (α := ℝ) (2 * s + 2) =
      (stageF (2 * s + 1) 6, builtIndices (2 * s + 1)) := by
    have h := buildGeometry_eq (α := ℝ) (2 * s + 1)
    rwa [show 2 * s + 1 + 1 = 2 * s + 2 from by omega] at h
  set Q : ℕ := 2 * s + 1 with hQ
  have hoff : s * (2 * s + 2) = s * Q + s := by rw [hQ]; ring
  have hlt : s * Q + s < Q * Q := by
    rw [hQ]
    nlinarith [Nat.zero_le s]
  have hL4 : (stageF (α := ℝ) Q 4).length = 8 + 12 * Q + 4 * (Q * Q) :=
    length_stageF Q 4
  have hfb4 : (fblock (α := ℝ) Q 4).length = Q * Q := length_fblock Q 4
  have hfb5 : (fblock (α := ℝ) Q 5).length = Q * Q := length_fblock Q 5
  have hsplit : stageF (α := ℝ) Q 6 = stageF Q 4 ++ (fblock Q 4 ++ fblock Q 5) := by
    simp [stageF, List.range_succ, List.flatMap_append, List.append_assoc]
  have hlen6 : (stageF (α := ℝ) Q 6).length = 8 + 12 * Q + 6 * (Q * Q) :=
    length_stageF Q 6
  have hc : ((1 + s : ℕ) : ℝ) / ((Q + 1 : ℕ) : ℝ) = 1 / 2 := by
    rw [hQ]
    push_cast
    rw [div_eq_div_iff (by positivity) (by norm_num)]
    ring
  have htopPt : (stageF (α := ℝ) Q 6).getD
      (8 + 12 * Q + 4 * (Q * Q) + s * (2 * s + 2)) czero = ⟨0, 0, 1⟩ := by
    rw [hsplit, List.getD_append_right _ _ _ _ (by rw [hL4]; omega)]
    have hidx : 8 + 12 * Q + 4 * (Q * Q) + s * (2 * s + 2) -
        (stageF (α := ℝ) Q 4).length = s * Q + s := by
      rw [hL4]
      omega
    rw [hidx, List.getD_append _ _ _ _ (by rw [hfb4]; omega)]
    rw [fblock]
    simp only [faceFrames]
    rw [getD_faceInteriorPoints _ _ _ Q s s (by omega) (by omega)]
    rw [facePoint, Cartesian3.multiplyByScalar, Cartesian3.multiplyByScalar,
      Cartesian3.add, Cartesian3.add, hc]
    simp only [Cartesian3.mk.injEq]
    norm_num
  have hbotPt : (stageF (α := ℝ) Q 6).getD
      (8 + 12 * Q + 5 * (Q * Q) + s * (2 * s + 2)) czero = ⟨0, 0, -1⟩ := by
    rw [hsplit, List.getD_append_right _ _ _ _ (by rw [hL4]; omega)]
    have hidx : 8 + 12 * Q + 5 * (Q * Q) + s * (2 * s + 2) -
        (stageF (α := ℝ) Q 4).length = Q * Q + (s * Q + s) := by
      rw [hL4]
      omega
    rw [hidx, List.getD_append_right _ _ _ _ (by rw [hfb4]; omega)]
    have hidx2 : Q * Q + (s * Q + s) - (fblock (α := ℝ) Q 4).length =
        s * Q + s := by
      rw [hfb4]
      omega
    rw [hidx2, fblock]
    simp only [faceFrames]
    rw [getD_faceInteriorPoints _ _ _ Q s s (by omega) (by omega)]
    rw [facePoint, Cartesian3.multiplyByScalar, Cartesian3.multiplyByScalar,
      Cartesian3.add, Cartesian3.add, hc]
    simp only [Cartesian3.mk.injEq]
    norm_num
  have hiTopLt : 8 + 12 * Q + 4 * (Q * Q) + s * (2 * s + 2) <
      (stageF (α := ℝ) Q 6).length := by
    rw [hlen6]
    omega
  have hiBotLt : 8 + 12 * Q + 5 * (Q * Q) + s * (2 * s + 2) <
      (stageF (α := ℝ) Q 6).length := by
    rw [hlen6]
    omega
  have hzero : ∀ ps : List (Cartesian3 ℝ), ps.length = (stageF (α := ℝ) Q 6).length →
      ∀ i < (stageF (α := ℝ) Q 6).length,
      (ps.getD i czero).x = 0 → (ps.getD i czero).y = 0 →
      readVec3 (tangentPass radii ps) i = czero ∧
      readVec3 (binormalPass radii ps) i = czero := by
    intro ps hlen i hi hpx hpy
    have hi' : i < ps.length := by omega
    obtain ⟨hcz1, hcz2⟩ := cross_unitZ_vertical radii (ps.getD i czero) hpx hpy
    constructor
    · rw [tangentPass, readVec3_flatten3 _ i (by simpa using hi'),
        getD_map_lt _ _ i hi']
      exact hcz1
    · rw [binormalPass, readVec3_flatten3 _ i (by simpa using hi'),
        getD_map_lt _ _ i hi']
      exact hcz2
  rw [makeEllipsoidGeometry, if_neg (by omega),
    if_neg (by push_neg; exact ⟨hx, hy, hz⟩), hs, hbg]
  have hfxy : ∀ v : Cartesian3 ℝ, v.x = 0 → v.y = 0 →
      ((v.normalize).multiplyComponents radii).x = 0 ∧
      ((v.normalize).multiplyComponents radii).y = 0 := by
    intro v hvx hvy
    rw [Cartesian3.normalize, Cartesian3.multiplyByScalar,
      Cartesian3.multiplyComponents]
    constructor <;> simp [hvx, hvy]
  by_cases hp : vf.position = true
  · refine ⟨_, rfl, htopPt, hbotPt,
      tangentPass radii (positionPass radii (stageF Q 6)),
      binormalPass radii (positionPass radii (stageF Q 6)),
      by simp [htf, hp], by simp [hbf, hp], ?_, ?_, ?_, ?_⟩
    · exact (hzero _ (length_positionPass _ _) _ hiTopLt
        (by rw [positionPass, getD_map_lt _ _ _ hiTopLt, htopPt]
            exact (hfxy ⟨0, 0, 1⟩ rfl rfl).1)
        (by rw [positionPass, getD_map_lt _ _ _ hiTopLt, htopPt]
            exact (hfxy ⟨0, 0, 1⟩ rfl rfl).2)).1
    · exact (hzero _ (length_positionPass _ _) _ hiTopLt
        (by rw [positionPass, getD_map_lt _ _ _ hiTopLt, htopPt]
            exact (hfxy ⟨0, 0, 1⟩ rfl rfl).1)
        (by rw [positionPass, getD_map_lt _ _ _ hiTopLt, htopPt]
            exact (hfxy ⟨0, 0, 1⟩ rfl rfl).2)).2
    · exact (hzero _ (length_positionPass _ _) _ hiBotLt
        (by rw [positionPass, getD_map_lt _ _ _ hiBotLt, hbotPt]
            exact (hfxy ⟨0, 0, -1⟩ rfl rfl).1)
        (by rw [positionPass, getD_map_lt _ _ _ hiBotLt, hbotPt]
            exact (hfxy ⟨0, 0, -1⟩ rfl rfl).2)).1
    · exact (hzero _ (length_positionPass _ _) _ hiBotLt
        (by rw [positionPass, getD_map_lt _ _ _ hiBotLt, hbotPt]
            exact (hfxy ⟨0, 0, -1⟩ rfl rfl).1)
        (by rw [positionPass, getD_map_lt _ _ _ hiBotLt, hbotPt]
            exact (hfxy ⟨0, 0, -1⟩ rfl rfl).2)).2
  · refine ⟨_, rfl, htopPt, hbotPt,
      tangentPass radii (stageF Q 6),
      binormalPass radii (stageF Q 6),
      by simp [htf, hp], by simp [hbf, hp], ?_, ?_, ?_, ?_⟩
    · exact (hzero _ rfl _ hiTopLt (by rw [htopPt]) (by rw [htopPt])).1
    · exact (hzero _ rfl _ hiTopLt (by rw [htopPt]) (by rw [htopPt])).2
    · exact (hzero _ rfl _ hiBotLt (by rw [hbotPt]) (by rw [hbotPt])).1
    · exact (hzero _ rfl _ hiBotLt (by rw [hbotPt]) (by rw [hbotPt])).2

/-- C10 witness at radii `(2,1,1)`, `P = 2`, all attributes requested. -/
theorem pole_tangents_vanish_witness :
    ((2 : ℤ) ≤ 2 ∧ (2 : ℤ) % 2 = 0 ∧
      (0 : ℝ) < (⟨2, 1, 1⟩ : Cartesian3 ℝ).x ∧
      (0 : ℝ) < (⟨2, 1, 1⟩ : Cartesian3 ℝ).y ∧
      (0 : ℝ) < (⟨2, 1, 1⟩ : Cartesian3 ℝ).z) ∧
      ∃ g, makeEllipsoidGeometry ⟨2, 1, 1⟩ 2 ⟨true, true, true, true, true⟩ =
          Except.ok g ∧
        (buildGeometry (α := ℝ) (2 : ℤ).toNat).1.getD
            (8 + 12 * ((2 : ℤ).toNat - 1) +
              4 * (((2 : ℤ).toNat - 1) * ((2 : ℤ).toNat - 1)) +
              ((2 : ℤ).toNat / 2 - 1) * (2 : ℤ).toNat) czero = ⟨0, 0, 1⟩ ∧
        (buildGeometry (α := ℝ) (2 : ℤ).toNat).1.getD
            (8 + 12 * ((2 : ℤ).toNat - 1) +
              5 * (((2 : ℤ).toNat - 1) * ((2 : ℤ).toNat - 1)) +
              ((2 : ℤ).toNat / 2 - 1) * (2 : ℤ).toNat) czero = ⟨0, 0, -1⟩ ∧
        ∃ ts bs, g.tangent = some ts ∧ g.binormal = some bs ∧
          readVec3 ts (8 + 12 * ((2 : ℤ).toNat - 1) +
            4 * (((2 : ℤ).toNat - 1) * ((2 : ℤ).toNat - 1)) +
            ((2 : ℤ).toNat / 2 - 1) * (2 : ℤ).toNat) = czero ∧
          readVec3 bs (8 + 12 * ((2 : ℤ).toNat - 1) +
            4 * (((2 : ℤ).toNat - 1) * ((2 : ℤ).toNat - 1)) +
            ((2 : ℤ).toNat / 2 - 1) * (2 : ℤ).toNat) = czero ∧
          readVec3 ts (8 + 12 * ((2 : ℤ).toNat - 1) +
            5 * (((2 : ℤ).toNat - 1) * ((2 : ℤ).toNat - 1)) +
            ((2 : ℤ).toNat / 2 - 1) * (2 : ℤ).toNat) = czero ∧
          readVec3 bs (8 + 12 * ((2 : ℤ).toNat - 1) +
            5 * (((2 : ℤ).toNat - 1) * ((2 : ℤ).toNat - 1)) +
            ((2 : ℤ).toNat / 2 - 1) * (2 : ℤ).toNat) = czero :=
  ⟨⟨by norm_num, by norm_num, by norm_num, by norm_num, by norm_num⟩,
   pole_tangents_vanish ⟨2, 1, 1⟩ 2 ⟨true, true, true, true, true⟩
     (by norm_num) (by norm_num) (by norm_num) (by norm_num) (by norm_num)
     rfl rfl⟩

end CesiumSpec
